import Mathlib

/-!
# Verification of the curricular-analytics course-record transformation engine

Shallow embedding of the transformation engine of the repository
(`parse_course_name.py`, `parse.py`, `output.py`, `output_json.py`) and proofs
settling the frozen claims C1-C10.

Conventions of the embedding:

* Python strings are Lean `String`s; the character-level scanning done by the
  Python `re` module is implemented directly on `List Char`, specialised to the
  concrete patterns appearing in the source (the patterns are fixed literals,
  so each regex is compiled by hand into a deterministic matcher with the same
  backtracking behaviour).
* Python `float` unit values are embedded as `ℚ`; every unit constant in the
  source (2, 2.5, 3, 5, 6, ...) is exactly representable.
* Python dicts keyed by course code or title are embedded as association
  lists (`List (key × value)`), first binding wins, insertion at the end;
  Python `dict` keys are unique, which appears as `Nodup` hypotheses.
* The lazily-loaded prerequisite table `prereqs(term_code)` of `parse.py`
  reads external CSV data; it is embedded as an opaque-to-us parameter
  `reqsTable : ℕ → CourseCode → List (List Prerequisite)` taking the term
  index directly (the composition of the term-code string arithmetic of
  `output.py` line 281 with the external table).
-/

namespace CurricularAnalytics

/-! ## Character classes (`parse_course_name.py` regexes)

`[A-Z]`, `\d` and `\w` of the source patterns. The source operates on
Unicode `str`; the embedding models the ASCII ranges, which is what every
character appearing in the patterns and claims exercises. -/

def isUpperAZ (c : Char) : Bool := 'A' ≤ c && c ≤ 'Z'

def isDigit09 (c : Char) : Bool := '0' ≤ c && c ≤ '9'

def isWordChar (c : Char) : Bool := c.isAlphanum || c = '_'

/-- `str.strip(chars)`: remove leading and trailing characters in `set`. -/
def stripChars (set : List Char) (cs : List Char) : List Char :=
  ((cs.dropWhile (set.contains ·)).reverse.dropWhile (set.contains ·)).reverse

/-- `left` is a prefix of `cs` (pattern argument first). -/
def beginsWith : List Char → List Char → Bool
  | [], _ => true
  | _ :: _, [] => false
  | p :: ps, c :: cs => p = c && beginsWith ps cs

/-! ## `parse_course_name`

Source: `parse_course_name.py` lines 17-48.  The regex
`DF-?\d - ` is removed everywhere (re.sub), then
`\b([A-Z]{2,4}) *(\d+[A-Z]{0,2})(?: *[&/] *\d?[A-Z]([LX]))?` is searched
(leftmost match, backtracking semantics hand-compiled below). -/

/-- One step of `re.sub(r"DF-?\d - ", "", name)`: does the pattern match at
the head; iterated by `subDF`. A greedy `-?` followed by `\d` is
deterministic: consuming an optional `-` and then requiring a digit is
equivalent to the backtracking search. -/
def subDFGo : ℕ → List Char → List Char
  | 0, cs => cs
  | _ + 1, [] => []
  | fuel + 1, 'D' :: 'F' :: '-' :: d :: ' ' :: '-' :: ' ' :: tail =>
      if isDigit09 d then subDFGo fuel tail
      else 'D' :: subDFGo fuel ('F' :: '-' :: d :: ' ' :: '-' :: ' ' :: tail)
  | fuel + 1, 'D' :: 'F' :: d :: ' ' :: '-' :: ' ' :: tail =>
      if isDigit09 d then subDFGo fuel tail
      else 'D' :: subDFGo fuel ('F' :: d :: ' ' :: '-' :: ' ' :: tail)
  | fuel + 1, c :: rest => c :: subDFGo fuel rest

/-- The fuel (an upper bound on the number of scanning steps, each of which
consumes at least one character) makes the recursion structural so that the
function reduces definitionally. -/
def subDF (cs : List Char) : List Char := subDFGo cs.length cs

/-- The optional linking group `(?: *[&/] *\d?[A-Z]([LX]))?` of the course
regex, tried at the position just after the course number. Returns the
captured `[LX]` character. (`\d?` needs no backtracking: if the optional
digit is present but the continuation fails, re-trying the digit position
against `[A-Z]` always fails.) -/
def matchLink (cs : List Char) : Option Char :=
  match cs.dropWhile (· = ' ') with
  | c :: r2 =>
    if c = '&' ∨ c = '/' then
      let r3 := r2.dropWhile (· = ' ')
      let r4 := match r3 with
                | d :: t => if isDigit09 d then t else r3
                | [] => r3
      match r4 with
      | a :: l :: _ => if isUpperAZ a ∧ (l = 'L' ∨ l = 'X') then some l else none
      | _ => none
    else none
  | [] => none

/-- Attempt the course regex at the current position (subject run, spaces,
digits, up to two trailing uppercase letters, optional linking group).
The greedy `[A-Z]{2,4}` with backtracking succeeds iff the maximal
uppercase run at this position has length 2-4: with a longer run, every
choice of 2-4 letters is followed by a further uppercase letter where
` *\d` then fails. -/
def matchAt (cs : List Char) : Option (List Char × List Char × Option Char) :=
  let letters := cs.takeWhile isUpperAZ
  if 2 ≤ letters.length ∧ letters.length ≤ 4 then
    let r1 := (cs.dropWhile isUpperAZ).dropWhile (· = ' ')
    let digits := r1.takeWhile isDigit09
    if digits = [] then none
    else
      let r2 := r1.dropWhile isDigit09
      let nl := (r2.takeWhile isUpperAZ).take 2
      some (letters, digits ++ nl, matchLink (r2.drop nl.length))
  else none

/-- `re.search`: try `matchAt` at each position left to right; `\b` before
`[A-Z]{2,4}` requires the previous character (argument `prev`) to not be a
word character. -/
def searchCourse : Option Char → List Char → Option (List Char × List Char × Option Char)
  | _, [] => none
  | prev, c :: rest =>
    let boundaryOk := match prev with | none => true | some p => !isWordChar p
    if boundaryOk then
      match matchAt (c :: rest) with
      | some r => some r
      | none => searchCourse (some c) rest
    else searchCourse (some c) rest

/-- `parse_course_name.py` lines 17-48. The final
`has_lab if has_lab == "L" or has_lab == "X" else None` of the source is
the identity here because the captured group is `([LX])`. -/
def parse_course_name (name : String) : Option (String × String × Option Char) :=
  let cs := stripChars ['^', '*', ' '] name.toList
  if beginsWith "ADV. CHEM".toList cs then none
  else
    match searchCourse none (subDF cs) with
    | some (subj, num, lab) =>
      let s : String := ⟨subj⟩
      if s = "IE" ∨ s = "RR" then none
      else some (s, ⟨num⟩, lab)
    | none => none

example : parse_course_name "MATH 10A/20A" = some ("MATH", "10A", none) := by decide
example : parse_course_name "PHYS 1A&1AL" = some ("PHYS", "1A", some 'L') := by decide
example : parse_course_name " ^*LTSP 2A/2BX " = some ("LTSP", "2A", some 'X') := by decide
example : parse_course_name "DF-1 - MATH 10A" = some ("MATH", "10A", none) := by decide
example : parse_course_name "ADV. CHEM 6A" = none := by decide
example : parse_course_name "IE 1" = none := by decide
example : parse_course_name "GE" = none := by decide
example : parse_course_name "SOCI- UD METHODOLOGY" = none := by decide
example : parse_course_name "CHEM 6AL/7L" = some ("CHEM", "6AL", none) := by decide
example : parse_course_name "ABCDE 12" = none := by decide
example : parse_course_name "xMATH 10A" = none := by decide

/-! ## `clean_course_title`

Source: `parse_course_name.py` lines 51-64. Four stages: strip decorative
characters, the `(GE|DEI) */ *(GE|AWP|DEI)` head collapse, the trailing
`/GE|/AWP|/DEI` removal, the trailing `(see note)`-style removal together
with a leading `1 `, and whitespace-run collapapsing. Each `re.sub` is
hand-compiled into a left-to-right scan, like the parser above. -/

/-- The strip set of `title.strip("^* ยน")`: the source file holds the two
UTF-8 characters U+0E22 and U+0E19 (mojibake in the source, reproduced
verbatim). -/
def stripSetClean : List Char := ['^', '*', ' ', Char.ofNat 0x0E22, Char.ofNat 0x0E19]

def toUpperCh (c : Char) : Char := c.toUpper

/-- Group `(GE|DEI)` at the head; returns whether it is DEI and the rest.
The alternatives start with distinct letters, so no backtracking across the
alternation can ever succeed where this fails. -/
def matchTag1 (cs : List Char) : Option (Bool × List Char) :=
  if beginsWith ['G', 'E'] cs then some (false, cs.drop 2)
  else if beginsWith ['D', 'E', 'I'] cs then some (true, cs.drop 3)
  else none

/-- Group `(GE|AWP|DEI)`; only its DEI-ness matters to the caller. -/
def matchTag2 (cs : List Char) : Option Bool :=
  if beginsWith ['G', 'E'] cs then some false
  else if beginsWith ['A', 'W', 'P'] cs then some false
  else if beginsWith ['D', 'E', 'I'] cs then some true
  else none

/-- `re.match(r"(GE|DEI) */ *(GE|AWP|DEI)", title)` (anchored at the start,
trailing characters ignored): returns `some isDei` on a match. -/
def geDeiHead (cs : List Char) : Option Bool :=
  match matchTag1 cs with
  | some (d1, r1) =>
    match r1.dropWhile (· = ' ') with
    | c :: r3 =>
      if c = '/' then
        match matchTag2 (r3.dropWhile (· = ' ')) with
        | some d2 => some (d1 || d2)
        | none => none
      else none
    | [] => none
  | none => none

/-- Does ` */ *(GE|AWP|DEI)` (case-insensitively, per `flags=re.I`) match
all of `cs`? Used at every position by `sub1`, which implements the
`$`-anchored `re.sub`: a match necessarily extends to the end of the
string. -/
def tailTagMatch (cs : List Char) : Bool :=
  match cs.dropWhile (· = ' ') with
  | c :: r2 =>
    c = '/' &&
      (let w := (r2.dropWhile (· = ' ')).map toUpperCh
       w = ['G', 'E'] || w = ['A', 'W', 'P'] || w = ['D', 'E', 'I'])
  | [] => false

/-- `re.sub(r" */ *(GE|AWP|DEI)$", "", title, flags=re.I)`: scan left to
right; on a match everything from the match position (which runs to the
end of the string) is removed. -/
def sub1 : List Char → List Char
  | [] => []
  | c :: rest => if tailTagMatch (c :: rest) then [] else c :: sub1 rest

/-- Case-insensitive comparison against `see note|DEI APPROVED|DEI`
(alternation order irrelevant here because the match must consume exactly
`w`). -/
def parenWord (w : List Char) : Bool :=
  let u := w.map toUpperCh
  u = "SEE NOTE".toList || u = "DEI APPROVED".toList || u = "DEI".toList

/-- Does ` *\(\*?(see note|DEI APPROVED|DEI)\*?\)` (case-insensitive) match
all of `cs`? The greedy `\*?` after `\(` is deterministic (the word
alternatives never start with `*`), and the trailing `\*?\)` is decided by
inspecting the last one or two characters. -/
def parenTailMatch (cs : List Char) : Bool :=
  match cs.dropWhile (· = ' ') with
  | c :: r2 =>
    c = '(' &&
      (let r3 := match r2 with | '*' :: t => t | _ => r2
       match r3.getLast? with
       | some ')' =>
         let body := r3.dropLast
         parenWord body ||
           (match body.getLast? with
            | some '*' => parenWord body.dropLast
            | _ => false)
       | _ => false)
  | [] => false

/-- The scanning part of
`re.sub(r" *\(\*?(see note|DEI APPROVED|DEI)\*?\)$|^1 ", "", title, flags=re.I)`
for positions past the start: only the first (end-anchored) alternative can
match there. -/
def sub2scan : List Char → List Char
  | [] => []
  | c :: rest => if parenTailMatch (c :: rest) then [] else c :: sub2scan rest

/-- The full second `re.sub`: at position 0 the first alternative is tried,
then `^1 ` (which consumes two characters, after which scanning resumes
with only the first alternative possible). -/
def sub2 (cs : List Char) : List Char :=
  match cs with
  | [] => []
  | c :: rest =>
    if parenTailMatch (c :: rest) then []
    else if c = '1' ∧ rest.head? = some ' ' then sub2scan rest.tail
    else c :: sub2scan rest

/-- `re.sub(r" +", " ", title)`: drop every space that immediately follows
another space. `prev` is the preceding character. -/
def collapseAux : Char → List Char → List Char
  | _, [] => []
  | prev, c :: rest =>
    if prev = ' ' ∧ c = ' ' then collapseAux prev rest
    else c :: collapseAux c rest

def collapseSpaces : List Char → List Char
  | [] => []
  | c :: rest => c :: collapseAux c rest

/-- `parse_course_name.py` lines 51-64. -/
def clean_course_title (title : String) : String :=
  let cs := stripChars stripSetClean title.toList
  match geDeiHead cs with
  | some isDei => if isDei then "DEI" else "GE"
  | none => ⟨collapseSpaces (sub2 (sub1 cs))⟩

example : clean_course_title "MATH 11" = "MATH 11" := by decide
example : clean_course_title "GE" = "GE" := by decide
example : clean_course_title "GE / DEI" = "DEI" := by decide
example : clean_course_title "DEI /GE: CSE 11" = "DEI" := by decide
example : clean_course_title "CSE 197 / GE" = "CSE 197" := by decide
example : clean_course_title "CAT 125 (see note)" = "CAT 125" := by decide
example : clean_course_title "1 ELECTIVE (DEI approved)" = "ELECTIVE" := by decide
example : clean_course_title "**AHI  LOWER  DIV" = "AHI LOWER DIV" := by decide
example : clean_course_title "SOCI- UD METHODOLOGY" = "SOCI- UD METHODOLOGY" := by decide

/-! ## Shape facts about successful parses -/

theorem takeWhile_append_stop {p : Char → Bool} {A B : List Char}
    (hA : ∀ a ∈ A, p a = true)
    (hB : ∀ b t, B = b :: t → p b = false) :
    (A ++ B).takeWhile p = A := by
  induction A with
  | nil =>
    cases B with
    | nil => simp
    | cons b t => simp [List.takeWhile_cons, hB b t rfl]
  | cons a A ih =>
    have ha := hA a (by simp)
    simp [List.takeWhile_cons, ha, ih (fun x hx => hA x (by simp [hx]))]

theorem dropWhile_append_stop {p : Char → Bool} {A B : List Char}
    (hA : ∀ a ∈ A, p a = true)
    (hB : ∀ b t, B = b :: t → p b = false) :
    (A ++ B).dropWhile p = B := by
  induction A with
  | nil =>
    cases B with
    | nil => simp
    | cons b t => simp [List.dropWhile_cons, hB b t rfl]
  | cons a A ih =>
    simp only [List.cons_append, List.dropWhile_cons, hA a (by simp), if_pos]
    exact ih (fun x hx => hA x (by simp [hx]))

theorem takeWhile_all {p : Char → Bool} {A : List Char}
    (hA : ∀ a ∈ A, p a = true) : A.takeWhile p = A := by
  have h2 : (A ++ []).takeWhile p = A :=
    takeWhile_append_stop hA (by intro b t h; cases h)
  rwa [List.append_nil] at h2

theorem isUpperAZ_not_digit {c : Char} (h : isUpperAZ c = true) : isDigit09 c = false := by
  unfold isUpperAZ at h
  unfold isDigit09
  simp only [Bool.and_eq_true, decide_eq_true_eq] at h
  by_contra hc
  simp only [Bool.not_eq_false, Bool.and_eq_true, decide_eq_true_eq] at hc
  exact absurd (le_trans h.1 hc.2) (by decide)

theorem isUpperAZ_ne {c x : Char} (h : isUpperAZ c = true)
    (hx : isUpperAZ x = false) : c ≠ x := by
  rintro rfl; rw [h] at hx; cases hx

theorem isDigit09_ne {c x : Char} (h : isDigit09 c = true)
    (hx : isDigit09 x = false) : c ≠ x := by
  rintro rfl; rw [h] at hx; cases hx

theorem matchAt_shape {cs subj num : List Char} {lab : Option Char}
    (h : matchAt cs = some (subj, num, lab)) :
    (∀ c ∈ subj, isUpperAZ c = true) ∧ 2 ≤ subj.length ∧ subj.length ≤ 4 ∧
    ∃ ds ls, num = ds ++ ls ∧ ds ≠ [] ∧ (∀ c ∈ ds, isDigit09 c = true) ∧
      (∀ c ∈ ls, isUpperAZ c = true) ∧ ls.length ≤ 2 := by
  simp only [matchAt] at h
  split at h
  case isTrue hlen =>
    split at h
    case isTrue => exact absurd h (by simp)
    case isFalse hne =>
      simp only [Option.some.injEq, Prod.mk.injEq] at h
      obtain ⟨hsubj, hnum, -⟩ := h
      subst hsubj
      refine ⟨fun c hc => List.mem_takeWhile_imp hc, hlen.1, hlen.2, ?_⟩
      refine ⟨_, _, hnum.symm, hne, fun c hc => List.mem_takeWhile_imp hc, ?_, ?_⟩
      · intro c hc
        exact List.mem_takeWhile_imp (List.mem_of_mem_take hc)
      · simp
  case isFalse => exact absurd h (by simp)

theorem searchCourse_shape {prev : Option Char} {cs subj num : List Char} {lab : Option Char}
    (h : searchCourse prev cs = some (subj, num, lab)) :
    (∀ c ∈ subj, isUpperAZ c = true) ∧ 2 ≤ subj.length ∧ subj.length ≤ 4 ∧
    ∃ ds ls, num = ds ++ ls ∧ ds ≠ [] ∧ (∀ c ∈ ds, isDigit09 c = true) ∧
      (∀ c ∈ ls, isUpperAZ c = true) ∧ ls.length ≤ 2 := by
  induction cs generalizing prev with
  | nil => cases h
  | cons c rest ih =>
    simp only [searchCourse] at h
    split at h
    · cases hm : matchAt (c :: rest) with
      | some r =>
        rw [hm] at h
        cases h
        exact matchAt_shape hm
      | none => rw [hm] at h; exact ih h
    · exact ih h

theorem parse_course_name_shape {name S N : String} {lab : Option Char}
    (h : parse_course_name name = some (S, N, lab)) :
    (∀ c ∈ S.data, isUpperAZ c = true) ∧ 2 ≤ S.data.length ∧ S.data.length ≤ 4 ∧
    S ≠ "IE" ∧ S ≠ "RR" ∧
    ∃ ds ls, N.data = ds ++ ls ∧ ds ≠ [] ∧ (∀ c ∈ ds, isDigit09 c = true) ∧
      (∀ c ∈ ls, isUpperAZ c = true) ∧ ls.length ≤ 2 := by
  simp only [parse_course_name] at h
  split at h
  · cases h
  · split at h
    case h_1 subj num lab0 hs =>
      split at h
      · cases h
      case isFalse hbl =>
        simp only [Option.some.injEq, Prod.mk.injEq] at h
        obtain ⟨hS, hN, -⟩ := h
        obtain ⟨h1, h2, h3, h4⟩ := searchCourse_shape hs
        subst hS hN
        push_neg at hbl
        exact ⟨h1, h2, h3, hbl.1, hbl.2, h4⟩
    case h_2 => cases h

/-! ## Round-tripping a parsed course code (claim C9) -/

theorem upper_notin_strip {c : Char} (h : isUpperAZ c = true) :
    c ∉ ['^', '*', ' '] := by
  have h1 : c ≠ '^' := isUpperAZ_ne h (by decide)
  have h2 : c ≠ '*' := isUpperAZ_ne h (by decide)
  have h3 : c ≠ ' ' := isUpperAZ_ne h (by decide)
  simp [h1, h2, h3]

theorem digit_notin_strip {c : Char} (h : isDigit09 c = true) :
    c ∉ ['^', '*', ' '] := by
  have h1 : c ≠ '^' := isDigit09_ne h (by decide)
  have h2 : c ≠ '*' := isDigit09_ne h (by decide)
  have h3 : c ≠ ' ' := isDigit09_ne h (by decide)
  simp [h1, h2, h3]

theorem stripChars_eq_self {set cs : List Char}
    (h1 : ∀ c, cs.head? = some c → c ∉ set)
    (h2 : ∀ c, cs.getLast? = some c → c ∉ set) :
    stripChars set cs = cs := by
  unfold stripChars
  cases cs with
  | nil => simp
  | cons a t =>
    rw [List.dropWhile_cons, if_neg (by simp [h1 a rfl])]
    cases hr : (a :: t).reverse with
    | nil => exact absurd hr (by simp)
    | cons b rt =>
      have hb : (a :: t).getLast? = some b := by
        rw [← List.head?_reverse, hr]; rfl
      rw [List.dropWhile_cons, if_neg (by simp [h2 b hb]), ← hr,
        List.reverse_reverse]

/-- No space directly followed by a dash: rules out every occurrence of the
`DF-?\d - ` pattern (which ends in space-dash-space). -/
def noSpaceBeforeDash : List Char → Prop
  | [] => True
  | [_] => True
  | a :: b :: rest => ¬(a = ' ' ∧ b = '-') ∧ noSpaceBeforeDash (b :: rest)

theorem noSpaceBeforeDash_tail {a : Char} {l : List Char}
    (h : noSpaceBeforeDash (a :: l)) : noSpaceBeforeDash l := by
  cases l with
  | nil => trivial
  | cons b rest => exact h.2

theorem noSpaceBeforeDash_append {A B : List Char}
    (hA : ∀ a ∈ A, a ≠ ' ') (hB : noSpaceBeforeDash B) :
    noSpaceBeforeDash (A ++ B) := by
  induction A with
  | nil => exact hB
  | cons a A ih =>
    have ha : a ≠ ' ' := hA a (by simp)
    have hrest := ih (fun x hx => hA x (by simp [hx]))
    rw [List.cons_append]
    cases hAB : A ++ B with
    | nil => trivial
    | cons x xs =>
      rw [hAB] at hrest
      exact ⟨fun hc => ha hc.1, hrest⟩

theorem noSpaceBeforeDash_of_all_ne {l : List Char}
    (hl : ∀ a ∈ l, a ≠ ' ') : noSpaceBeforeDash l := by
  have h : noSpaceBeforeDash (l ++ []) := noSpaceBeforeDash_append hl trivial
  rwa [List.append_nil] at h

theorem subDFGo_eq_self {fuel : ℕ} {cs : List Char}
    (h : noSpaceBeforeDash cs) : subDFGo fuel cs = cs := by
  induction fuel, cs using subDFGo.induct with
  | case1 => rfl
  | case2 => rfl
  | case3 fuel d tail _ _ => simp [noSpaceBeforeDash] at h
  | case4 fuel d tail _ _ => simp [noSpaceBeforeDash] at h
  | case5 fuel d tail _ _ => simp [noSpaceBeforeDash] at h
  | case6 fuel d tail _ _ => simp [noSpaceBeforeDash] at h
  | case7 fuel c rest g1 g2 ih =>
    rw [subDFGo]
    · rw [ih (noSpaceBeforeDash_tail h)]
    · exact g1
    · exact g2

theorem subDF_eq_self {cs : List Char} (h : noSpaceBeforeDash cs) :
    subDF cs = cs := subDFGo_eq_self h

theorem mem_of_getLast?_eq {l : List Char} {c : Char} (h : l.getLast? = some c) :
    c ∈ l := by
  obtain ⟨hne, rfl⟩ := List.mem_getLast?_eq_getLast h
  exact List.getLast_mem hne

/-- The course regex, applied to a rebuilt `"{subject} {number}"` title,
matches it entirely with no linking group. -/
theorem matchAt_of_shape {S ds ls : List Char}
    (hSU : ∀ c ∈ S, isUpperAZ c = true) (hS2 : 2 ≤ S.length) (hS4 : S.length ≤ 4)
    (hds : ds ≠ []) (hdsd : ∀ c ∈ ds, isDigit09 c = true)
    (hls : ∀ c ∈ ls, isUpperAZ c = true) (hls2 : ls.length ≤ 2) :
    matchAt (S ++ ' ' :: (ds ++ ls)) = some (S, ds ++ ls, none) := by
  obtain ⟨d0, ds', rfl⟩ : ∃ d0 ds', ds = d0 :: ds' := by
    cases ds with
    | nil => exact absurd rfl hds
    | cons d0 ds' => exact ⟨d0, ds', rfl⟩
  have hspace : ∀ b t, (' ' :: (d0 :: ds' ++ ls)) = b :: t → isUpperAZ b = false := by
    rintro b t hbt
    cases hbt
    decide
  have htw : (S ++ ' ' :: ((d0 :: ds') ++ ls)).takeWhile isUpperAZ = S :=
    takeWhile_append_stop hSU hspace
  have hdw : (S ++ ' ' :: ((d0 :: ds') ++ ls)).dropWhile isUpperAZ
      = ' ' :: ((d0 :: ds') ++ ls) :=
    dropWhile_append_stop hSU hspace
  have hd0 : isDigit09 d0 = true := hdsd d0 (by simp)
  have hd0ne : ¬(d0 = ' ') := isDigit09_ne hd0 (by decide)
  have hsp2 : (' ' :: ((d0 :: ds') ++ ls)).dropWhile (· = ' ')
      = (d0 :: ds') ++ ls := by
    rw [List.dropWhile_cons, if_pos (by simp), List.cons_append, List.dropWhile_cons,
      if_neg (by simp [hd0ne])]
  have hdigStop : ∀ b t, ls = b :: t → isDigit09 b = false := fun b t hbt =>
    isUpperAZ_not_digit (hls b (by simp [hbt]))
  have htwd : ((d0 :: ds') ++ ls).takeWhile isDigit09 = d0 :: ds' :=
    takeWhile_append_stop hdsd hdigStop
  have hdwd : ((d0 :: ds') ++ ls).dropWhile isDigit09 = ls :=
    dropWhile_append_stop hdsd hdigStop
  have htwl : ls.takeWhile isUpperAZ = ls := takeWhile_all hls
  have htk : ls.take 2 = ls := List.take_of_length_le hls2
  simp only [matchAt, htw, hdw, hsp2, htwd, hdwd, htwl, htk]
  rw [if_pos ⟨hS2, hS4⟩, if_neg (by simp), List.drop_length]
  rfl

theorem searchCourse_head {cs : List Char} {r : List Char × List Char × Option Char}
    (hne : cs ≠ []) (h : matchAt cs = some r) : searchCourse none cs = some r := by
  cases cs with
  | nil => exact absurd rfl hne
  | cons c rest => simp [searchCourse, h]

/-- A 2-4 letter all-uppercase subject followed by a space can never spell
the `"ADV. CHEM"` prefix (the dot or a space gets in the way). -/
theorem beginsWith_adv_false {L R : List Char} (hLU : ∀ c ∈ L, isUpperAZ c = true)
    (h2 : 2 ≤ L.length) (h4 : L.length ≤ 4) :
    beginsWith "ADV. CHEM".toList (L ++ (' ' :: R)) = false := by
  have hpat : "ADV. CHEM".toList = ['A', 'D', 'V', '.', ' ', 'C', 'H', 'E', 'M'] := rfl
  rw [hpat, Bool.eq_false_iff]
  intro htrue
  rcases L with - | ⟨a, - | ⟨b, - | ⟨c, - | ⟨d, - | ⟨e, L2⟩⟩⟩⟩⟩
  · simp at h2
  · simp at h2
  · simp only [List.cons_append, List.nil_append, beginsWith, Bool.and_eq_true,
      decide_eq_true_eq] at htrue
    exact absurd htrue.2.2.1 (by decide)
  · simp only [List.cons_append, List.nil_append, beginsWith, Bool.and_eq_true,
      decide_eq_true_eq] at htrue
    exact absurd htrue.2.2.2.1 (by decide)
  · simp only [List.cons_append, List.nil_append, beginsWith, Bool.and_eq_true,
      decide_eq_true_eq] at htrue
    have hd : isUpperAZ d = true := hLU d (by simp)
    rw [← htrue.2.2.2.1] at hd
    exact absurd hd (by decide)
  · simp at h4

/-- Rebuilding `"{subject} {number}"` from a successful parse and parsing it
again succeeds with the same subject and number and no lab suffix
(claim C9's key property, stated on the embedding of `parse_course_name`). -/
theorem parse_course_name_roundtrip {name S N : String} {lab : Option Char}
    (h : parse_course_name name = some (S, N, lab)) :
    parse_course_name (S ++ " " ++ N) = some (S, N, none) := by
  obtain ⟨hSU, hS2, hS4, hIE, hRR, ds, ls, hN, hds, hdsd, hls, hls2⟩ :=
    parse_course_name_shape h
  obtain ⟨s0, S2, hSdata⟩ : ∃ s0 S2, S.data = s0 :: S2 := by
    cases hd : S.data with
    | nil => rw [hd] at hS2; exact absurd hS2 (by decide)
    | cons s0 S2 => exact ⟨s0, S2, rfl⟩
  have hdata : (S ++ " " ++ N).data = S.data ++ (' ' :: N.data) := by
    rw [String.data_append, String.data_append, List.append_assoc]; rfl
  have hNne : N.data ≠ [] := by
    rw [hN]
    cases ds with
    | nil => exact absurd rfl hds
    | cons a b => simp
  have hstrip : stripChars ['^', '*', ' '] (S.data ++ (' ' :: N.data))
      = S.data ++ (' ' :: N.data) := by
    refine stripChars_eq_self ?_ ?_
    · intro c hc
      rw [hSdata] at hc
      simp only [List.cons_append, List.head?_cons, Option.some.injEq] at hc
      subst hc
      exact upper_notin_strip (hSU _ (by rw [hSdata]; simp))
    · intro c hc
      rw [List.getLast?_append_of_ne_nil S.data (by simp)] at hc
      have hc2 : N.data.getLast? = some c := by
        have hx := List.getLast?_append_of_ne_nil [' '] hNne
        simp only [List.singleton_append] at hx
        rw [hx] at hc
        exact hc
      have hmem : c ∈ N.data := mem_of_getLast?_eq hc2
      rw [hN] at hmem
      rcases List.mem_append.1 hmem with hm | hm
      · exact digit_notin_strip (hdsd c hm)
      · exact upper_notin_strip (hls c hm)
  have hadv : beginsWith "ADV. CHEM".toList (S.data ++ (' ' :: N.data)) = false :=
    beginsWith_adv_false hSU hS2 hS4
  have hdf : subDF (S.data ++ (' ' :: N.data)) = S.data ++ (' ' :: N.data) := by
    refine subDF_eq_self (noSpaceBeforeDash_append
      (fun a ha => isUpperAZ_ne (hSU a ha) (by decide)) ?_)
    rw [hN]
    obtain ⟨d0, ds', rfl⟩ : ∃ d0 ds', ds = d0 :: ds' := by
      cases ds with
      | nil => exact absurd rfl hds
      | cons d0 ds' => exact ⟨d0, ds', rfl⟩
    rw [List.cons_append]
    refine ⟨fun hcontr => ?_, ?_⟩
    · exact absurd hcontr.2 (isDigit09_ne (hdsd d0 (by simp)) (by decide))
    · refine noSpaceBeforeDash_of_all_ne ?_
      intro a ha
      rcases List.mem_cons.1 ha with rfl | hm
      · exact isDigit09_ne (hdsd _ (by simp)) (by decide)
      · rcases List.mem_append.1 hm with hm2 | hm2
        · exact isDigit09_ne (hdsd a (by simp [hm2])) (by decide)
        · exact isUpperAZ_ne (hls a hm2) (by decide)
  have hsearch : searchCourse none (S.data ++ (' ' :: N.data))
      = some (S.data, N.data, none) := by
    refine searchCourse_head (by rw [hSdata]; simp) ?_
    rw [hN]
    exact matchAt_of_shape hSU hS2 hS4 hds hdsd hls hls2
  simp only [parse_course_name]
  have htl : (S ++ " " ++ N).toList = S.data ++ (' ' :: N.data) := hdata
  rw [htl, hstrip, hadv, hdf, hsearch]
  simp only [Bool.false_eq_true, if_false]
  have heta : (⟨S.data⟩ : String) = S := rfl
  rw [heta, if_neg (by simp [hIE, hRR])]

/-! ## `clean_course_title` is the identity on `"{subject} {number}"` titles -/

theorem dropWhile_mem {p : Char → Bool} {l : List Char} {c : Char}
    (hc : c ∈ l.dropWhile p) : c ∈ l := (List.dropWhile_sublist p).subset hc

theorem drop_mem {n : ℕ} {l : List Char} {c : Char} (hc : c ∈ l.drop n) : c ∈ l :=
  (List.drop_sublist n l).subset hc

theorem matchTag1_rest {cs r : List Char} {d : Bool} (h : matchTag1 cs = some (d, r)) :
    r = cs.drop 2 ∨ r = cs.drop 3 := by
  unfold matchTag1 at h
  split at h
  · cases h; exact Or.inl rfl
  · split at h
    · cases h; exact Or.inr rfl
    · cases h

theorem geDeiHead_none {cs : List Char} (h : ∀ c ∈ cs, c ≠ '/') :
    geDeiHead cs = none := by
  cases ht : matchTag1 cs with
  | none => simp [geDeiHead, ht]
  | some dr =>
    obtain ⟨d1, r1⟩ := dr
    cases hd : r1.dropWhile (· = ' ') with
    | nil => simp [geDeiHead, ht, hd]
    | cons c r3 =>
      have hc : c ∈ cs := by
        have h1 : c ∈ r1 := dropWhile_mem (by rw [hd]; simp)
        rcases matchTag1_rest ht with hr | hr <;> exact drop_mem (hr ▸ h1)
      simp [geDeiHead, ht, hd, h c hc]

theorem tailTagMatch_false {cs : List Char} (h : ∀ c ∈ cs, c ≠ '/') :
    tailTagMatch cs = false := by
  cases hd : cs.dropWhile (· = ' ') with
  | nil => simp [tailTagMatch, hd]
  | cons c r2 =>
    have hc : c ∈ cs := dropWhile_mem (by rw [hd]; simp)
    simp [tailTagMatch, hd, h c hc]

theorem sub1_eq_self {cs : List Char} (h : ∀ c ∈ cs, c ≠ '/') :
    sub1 cs = cs := by
  induction cs with
  | nil => rfl
  | cons c rest ih =>
    rw [sub1, if_neg (by simp [tailTagMatch_false h]),
      ih (fun x hx => h x (by simp [hx]))]

theorem parenTailMatch_false {cs : List Char} (h : ∀ c ∈ cs, c ≠ '(') :
    parenTailMatch cs = false := by
  cases hd : cs.dropWhile (· = ' ') with
  | nil => simp [parenTailMatch, hd]
  | cons c r2 =>
    have hc : c ∈ cs := dropWhile_mem (by rw [hd]; simp)
    simp [parenTailMatch, hd, h c hc]

theorem sub2scan_eq_self {cs : List Char} (h : ∀ c ∈ cs, c ≠ '(') :
    sub2scan cs = cs := by
  induction cs with
  | nil => rfl
  | cons c rest ih =>
    rw [sub2scan, if_neg (by simp [parenTailMatch_false h]),
      ih (fun x hx => h x (by simp [hx]))]

theorem sub2_eq_self {c0 : Char} {rest : List Char}
    (h : ∀ c ∈ c0 :: rest, c ≠ '(') (h1 : c0 ≠ '1') :
    sub2 (c0 :: rest) = c0 :: rest := by
  rw [sub2, if_neg (by simp [parenTailMatch_false h]),
    if_neg (by simp [h1]),
    sub2scan_eq_self (fun x hx => h x (by simp [hx]))]

/-- No space directly followed by another space: the whitespace-collapsing
pass is then the identity. -/
def noTwoSpaces : List Char → Prop
  | a :: b :: rest => ¬(a = ' ' ∧ b = ' ') ∧ noTwoSpaces (b :: rest)
  | _ => True

theorem collapseAux_eq_self {prev : Char} {l : List Char}
    (h : noTwoSpaces (prev :: l)) : collapseAux prev l = l := by
  induction l generalizing prev with
  | nil => rfl
  | cons c rest ih =>
    rw [collapseAux, if_neg h.1, ih h.2]

theorem collapseSpaces_eq_self {cs : List Char} (h : noTwoSpaces cs) :
    collapseSpaces cs = cs := by
  cases cs with
  | nil => rfl
  | cons c rest => rw [collapseSpaces, collapseAux_eq_self h]

theorem noTwoSpaces_tail {a : Char} {l : List Char} (h : noTwoSpaces (a :: l)) :
    noTwoSpaces l := by
  cases l with
  | nil => trivial
  | cons b rest => exact h.2

theorem noTwoSpaces_append {A B : List Char}
    (hA : ∀ a ∈ A, a ≠ ' ') (hB : noTwoSpaces B) :
    noTwoSpaces (A ++ B) := by
  induction A with
  | nil => exact hB
  | cons a A ih =>
    have ha : a ≠ ' ' := hA a (by simp)
    have hrest := ih (fun x hx => hA x (by simp [hx]))
    rw [List.cons_append]
    cases hAB : A ++ B with
    | nil => trivial
    | cons x xs =>
      rw [hAB] at hrest
      exact ⟨fun hc => ha hc.1, hrest⟩

theorem noTwoSpaces_of_all_ne {l : List Char} (hl : ∀ a ∈ l, a ≠ ' ') :
    noTwoSpaces l := by
  have h : noTwoSpaces (l ++ []) := noTwoSpaces_append hl trivial
  rwa [List.append_nil] at h

/-- `clean_course_title` leaves a title of the form
`"{2-4 uppercase letters} {digits/letters}"` untouched: nothing to strip,
no `/`, no parenthesis, no leading `1 `, no double space. -/
theorem clean_course_title_eq_self_of_shape {S M : List Char}
    (hSU : ∀ c ∈ S, isUpperAZ c = true) (hSne : S ≠ [])
    (hM : ∀ c ∈ M, isUpperAZ c = true ∨ isDigit09 c = true) (hMne : M ≠ []) :
    clean_course_title ⟨S ++ ' ' :: M⟩ = ⟨S ++ ' ' :: M⟩ := by
  obtain ⟨s0, S2, rfl⟩ : ∃ s0 S2, S = s0 :: S2 := by
    cases S with
    | nil => exact absurd rfl hSne
    | cons s0 S2 => exact ⟨s0, S2, rfl⟩
  obtain ⟨m0, M2, rfl⟩ : ∃ m0 M2, M = m0 :: M2 := by
    cases M with
    | nil => exact absurd rfl hMne
    | cons m0 M2 => exact ⟨m0, M2, rfl⟩
  have hMne' : ∀ c ∈ m0 :: M2, c ≠ ' ' := by
    intro c hc
    rcases hM c hc with hu | hd
    · exact isUpperAZ_ne hu (by decide)
    · exact isDigit09_ne hd (by decide)
  have hMnotin : ∀ c ∈ m0 :: M2, c ∉ stripSetClean := by
    intro c hc
    rcases hM c hc with hu | hd
    · have n1 : c ≠ '^' := isUpperAZ_ne hu (by decide)
      have n2 : c ≠ '*' := isUpperAZ_ne hu (by decide)
      have n3 : c ≠ ' ' := isUpperAZ_ne hu (by decide)
      have n4 : c ≠ Char.ofNat 0x0E22 := isUpperAZ_ne hu (by decide)
      have n5 : c ≠ Char.ofNat 0x0E19 := isUpperAZ_ne hu (by decide)
      simp [stripSetClean, n1, n2, n3, n4, n5]
    · have n1 : c ≠ '^' := isDigit09_ne hd (by decide)
      have n2 : c ≠ '*' := isDigit09_ne hd (by decide)
      have n3 : c ≠ ' ' := isDigit09_ne hd (by decide)
      have n4 : c ≠ Char.ofNat 0x0E22 := isDigit09_ne hd (by decide)
      have n5 : c ≠ Char.ofNat 0x0E19 := isDigit09_ne hd (by decide)
      simp [stripSetClean, n1, n2, n3, n4, n5]
  have hall : ∀ c ∈ (s0 :: S2) ++ ' ' :: (m0 :: M2),
      isUpperAZ c = true ∨ isDigit09 c = true ∨ c = ' ' := by
    intro c hc
    rcases List.mem_append.1 hc with hm | hm
    · exact Or.inl (hSU c hm)
    · rcases List.mem_cons.1 hm with rfl | hm2
      · exact Or.inr (Or.inr rfl)
      · rcases hM c hm2 with hu | hd
        · exact Or.inl hu
        · exact Or.inr (Or.inl hd)
  have hnoslash : ∀ c ∈ (s0 :: S2) ++ ' ' :: (m0 :: M2), c ≠ '/' := by
    intro c hc
    rcases hall c hc with hu | hd | hsp
    · exact isUpperAZ_ne hu (by decide)
    · exact isDigit09_ne hd (by decide)
    · rw [hsp]; decide
  have hnoparen : ∀ c ∈ (s0 :: S2) ++ ' ' :: (m0 :: M2), c ≠ '(' := by
    intro c hc
    rcases hall c hc with hu | hd | hsp
    · exact isUpperAZ_ne hu (by decide)
    · exact isDigit09_ne hd (by decide)
    · rw [hsp]; decide
  have hs0 : isUpperAZ s0 = true := hSU s0 (by simp)
  have hstrip : stripChars stripSetClean ((s0 :: S2) ++ ' ' :: (m0 :: M2))
      = (s0 :: S2) ++ ' ' :: (m0 :: M2) := by
    refine stripChars_eq_self ?_ ?_
    · intro c hc
      simp only [List.cons_append, List.head?_cons, Option.some.injEq] at hc
      rw [← hc]
      have n1 : s0 ≠ '^' := isUpperAZ_ne hs0 (by decide)
      have n2 : s0 ≠ '*' := isUpperAZ_ne hs0 (by decide)
      have n3 : s0 ≠ ' ' := isUpperAZ_ne hs0 (by decide)
      have n4 : s0 ≠ Char.ofNat 0x0E22 := isUpperAZ_ne hs0 (by decide)
      have n5 : s0 ≠ Char.ofNat 0x0E19 := isUpperAZ_ne hs0 (by decide)
      simp [stripSetClean, n1, n2, n3, n4, n5]
    · intro c hc
      rw [List.getLast?_append_of_ne_nil (s0 :: S2) (by simp)] at hc
      have hc2 : (m0 :: M2).getLast? = some c := by
        have hx : ([' '] ++ (m0 :: M2)).getLast? = (m0 :: M2).getLast? :=
          List.getLast?_append_of_ne_nil [' '] (by simp)
        simp only [List.singleton_append] at hx
        rw [← hx]
        exact hc
      exact hMnotin c (mem_of_getLast?_eq hc2)
  have hs1 : s0 ≠ '1' := isUpperAZ_ne hs0 (by decide)
  have hnts : noTwoSpaces ((s0 :: S2) ++ ' ' :: (m0 :: M2)) :=
    noTwoSpaces_append (fun a ha => isUpperAZ_ne (hSU a ha) (by decide))
      ⟨fun hc => hMne' m0 (by simp) hc.2, noTwoSpaces_of_all_ne hMne'⟩
  have hnts2 : noTwoSpaces (s0 :: (S2 ++ ' ' :: m0 :: M2)) := hnts
  have hnp2 : ∀ c ∈ s0 :: (S2 ++ ' ' :: m0 :: M2), c ≠ '(' := hnoparen
  simp only [clean_course_title, String.toList, hstrip, geDeiHead_none hnoslash,
    sub1_eq_self hnoslash]
  rw [List.cons_append, sub2_eq_self hnp2 hs1, collapseSpaces_eq_self hnts2]

/-! ## Data model (`parse.py`, `output.py`) -/

/-- `parse.py` line 23. -/
abbrev CourseCode := String × String

/-- `parse.py` lines 92-94. -/
structure Prerequisite where
  course_code : CourseCode
  allow_concurrent : Bool
deriving DecidableEq

/-- `parse.py` lines 187-195 (`units` is a Python float; every value used by
the source and its override tables is an exact decimal, embedded in `ℚ`).
`type` is `"COLLEGE"` or `"DEPARTMENT"`. -/
structure PlannedCourse where
  course_title : String
  units : ℚ
  type : String
  overlaps_ge : Bool
deriving DecidableEq

/-- `output.py` lines 50-64. -/
structure ProcessedCourse where
  course_title : String
  code : CourseCode
  units : ℚ
  major_course : Bool
  term : ℕ
deriving DecidableEq

/-- `output.py` lines 108-136. -/
structure OutputCourse where
  course_id : ℕ
  course_title : String
  code : CourseCode
  prereq_ids : List ℕ
  coreq_ids : List ℕ
  units : ℚ
  term : ℕ
deriving DecidableEq

/-- Python `dict` lookup, embedded on association lists (first binding
wins; the embedding's insertion functions keep keys unique, as a `dict`
does). -/
def alookup {α β : Type} [DecidableEq α] : List (α × β) → α → Option β
  | [], _ => none
  | (k, v) :: rest, a => if k = a then some v else alookup rest a

theorem alookup_cons {α β : Type} [DecidableEq α] (k : α) (w : β)
    (rest : List (α × β)) (a : α) :
    alookup ((k, w) :: rest) a = if k = a then some w else alookup rest a := rfl

theorem alookup_nil {α β : Type} [DecidableEq α] (a : α) :
    alookup ([] : List (α × β)) a = none := rfl

/-- `output.py` lines 66-105 (`InputCourse` and its `process` method; the
Python `code or ("", "")` only replaces `None`, because a 2-tuple is always
truthy). -/
structure InputCourse where
  course : PlannedCourse
  major_course : Bool
  term : ℕ
deriving DecidableEq

def InputCourse.process (ic : InputCourse) (code : Option CourseCode)
    (course_title : Option String) (units : Option ℚ) : ProcessedCourse :=
  { course_title := clean_course_title (course_title.getD ic.course.course_title)
    code := code.getD ("", "")
    units := units.getD ic.course.units
    major_course := ic.major_course
    term := ic.term }

/-- `output.py` lines 42-47. -/
def unit_overrides : List (String × (CourseCode × ℚ)) :=
  [("MATH 11", (("MATH", "11"), 5)),
   ("CAT 2", (("CAT", "2"), 6)),
   ("CAT 3", (("CAT", "3"), 6)),
   ("PHYS 1C", (("PHYS", "1C"), 3))]

/-- `output.py` lines 38-41. -/
def non_course_prereqs : List (String × List CourseCode) :=
  [("SOCI- UD METHODOLOGY", [("SOCI", "60")]),
   ("TDHD XXX", [("TDTR", "10")])]

/-- Step 2 of `MajorOutput.get_courses` (`output.py` lines 411-442): unit
override, else parse; on a lab/link suffix split into two records. -/
def processInput (ic : InputCourse) : List ProcessedCourse :=
  match alookup unit_overrides ic.course.course_title with
  | some (course_code, units) => [ic.process (some course_code) none (some units)]
  | none =>
    match parse_course_name ic.course.course_title with
    | some (subject, number, some lab) =>
        [ic.process (some (subject, number)) (some (subject ++ " " ++ number))
           (some (if lab = 'L' then 3 else 2.5)),
         ic.process (some (subject, number ++ ⟨[lab]⟩))
           (some (subject ++ " " ++ number ++ ⟨[lab]⟩))
           (some (if lab = 'L' then 2 else 2.5))]
    | some (subject, number, none) => [ic.process (some (subject, number)) none none]
    | none => [ic.process none none none]

/-! ## The lab suffix is always `L` or `X` -/

theorem matchLink_LX {cs : List Char} {l : Char} (h : matchLink cs = some l) :
    l = 'L' ∨ l = 'X' := by
  simp only [matchLink] at h
  split at h
  · split at h
    · split at h
      · split at h
        · simp only [Option.some.injEq] at h
          subst h
          rename_i hcond
          exact hcond.2
        · cases h
      · cases h
    · cases h
  · cases h

theorem matchAt_lab {cs subj num : List Char} {c : Char}
    (h : matchAt cs = some (subj, num, some c)) : c = 'L' ∨ c = 'X' := by
  simp only [matchAt] at h
  split at h
  · split at h
    · cases h
    · simp only [Option.some.injEq, Prod.mk.injEq] at h
      exact matchLink_LX h.2.2
  · cases h

theorem searchCourse_lab {prev : Option Char} {cs subj num : List Char} {c : Char}
    (h : searchCourse prev cs = some (subj, num, some c)) : c = 'L' ∨ c = 'X' := by
  induction cs generalizing prev with
  | nil => cases h
  | cons x rest ih =>
    simp only [searchCourse] at h
    split at h
    · cases hm : matchAt (x :: rest) with
      | some r =>
        rw [hm] at h
        cases h
        exact matchAt_lab hm
      | none => rw [hm] at h; exact ih h
    · exact ih h

theorem parse_course_name_lab {name S N : String} {c : Char}
    (h : parse_course_name name = some (S, N, some c)) : c = 'L' ∨ c = 'X' := by
  simp only [parse_course_name] at h
  split at h
  · cases h
  · split at h
    case h_1 subj num lab0 hs =>
      split at h
      · cases h
      · simp only [Option.some.injEq, Prod.mk.injEq] at h
        obtain ⟨-, -, hlab⟩ := h
        rw [hlab] at hs
        exact searchCourse_lab hs
    case h_2 => cases h

/-! ## Claim C4: the lab/link split -/

/-- A successfully parsed subject and number assemble into a title that
`clean_course_title` leaves unchanged (with an optional trailing lab
letter). -/
theorem clean_title_of_parse {name S N : String} {lab : Option Char}
    (h : parse_course_name name = some (S, N, lab)) :
    clean_course_title (S ++ " " ++ N) = S ++ " " ++ N := by
  obtain ⟨hSU, hS2, hS4, -, -, ds, ls, hN, hds, hdsd, hls, -⟩ :=
    parse_course_name_shape h
  have hdata : (S ++ " " ++ N).data = S.data ++ (' ' :: N.data) := by
    rw [String.data_append, String.data_append, List.append_assoc]; rfl
  have hkey : (S ++ " " ++ N) = (⟨S.data ++ ' ' :: N.data⟩ : String) := by
    cases hmk : S ++ " " ++ N
    simp only at hdata ⊢
    rw [← hdata, ← hmk]
  rw [hkey]
  refine clean_course_title_eq_self_of_shape hSU ?_ ?_ ?_
  · intro hnil; rw [hnil] at hS2; exact absurd hS2 (by decide)
  · intro c hc
    rw [hN] at hc
    rcases List.mem_append.1 hc with hm | hm
    · exact Or.inr (hdsd c hm)
    · exact Or.inl (hls c hm)
  · rw [hN]
    cases ds with
    | nil => exact absurd rfl hds
    | cons a b => simp

theorem clean_title_of_parse_lab {name S N : String} {c : Char}
    (h : parse_course_name name = some (S, N, some c)) :
    clean_course_title (S ++ " " ++ N ++ ⟨[c]⟩) = S ++ " " ++ N ++ ⟨[c]⟩ := by
  obtain ⟨hSU, hS2, hS4, -, -, ds, ls, hN, hds, hdsd, hls, -⟩ :=
    parse_course_name_shape h
  have hcLX : c = 'L' ∨ c = 'X' := parse_course_name_lab h
  have hdata : (S ++ " " ++ N ++ ⟨[c]⟩).data = S.data ++ (' ' :: (N.data ++ [c])) := by
    rw [String.data_append, String.data_append, String.data_append,
      List.append_assoc, List.append_assoc]
    rfl
  have hkey : (S ++ " " ++ N ++ ⟨[c]⟩) = (⟨S.data ++ ' ' :: (N.data ++ [c])⟩ : String) := by
    cases hmk : S ++ " " ++ N ++ ⟨[c]⟩
    simp only at hdata ⊢
    rw [← hdata, ← hmk]
  rw [hkey]
  refine clean_course_title_eq_self_of_shape hSU ?_ ?_ ?_
  · intro hnil; rw [hnil] at hS2; exact absurd hS2 (by decide)
  · intro x hx
    rcases List.mem_append.1 hx with hm | hm
    · rw [hN] at hm
      rcases List.mem_append.1 hm with hm2 | hm2
      · exact Or.inr (hdsd x hm2)
      · exact Or.inl (hls x hm2)
    · rcases hcLX with rfl | rfl <;> rcases List.mem_singleton.1 hm with rfl <;>
        exact Or.inl (by decide)
  · simp

/-- Claim C4: a title outside the override table that parses with a lab or
link suffix is processed into exactly two records, base then linked
section, with the claimed codes, rebuilt titles, and 3/2 (for `L`) or
2.5/2.5 (for `X`) units, both carrying the input's term and major flag. -/
theorem lab_split_two_records (ic : InputCourse) (S N : String) (lab : Char)
    (hov : alookup unit_overrides ic.course.course_title = none)
    (hp : parse_course_name ic.course.course_title = some (S, N, some lab)) :
    processInput ic =
      [⟨S ++ " " ++ N, (S, N), if lab = 'L' then 3 else 2.5,
        ic.major_course, ic.term⟩,
       ⟨S ++ " " ++ N ++ ⟨[lab]⟩, (S, N ++ ⟨[lab]⟩), if lab = 'L' then 2 else 2.5,
        ic.major_course, ic.term⟩] := by
  simp only [processInput, hov, hp, InputCourse.process, Option.getD_some]
  rw [clean_title_of_parse hp, clean_title_of_parse_lab hp]

/-! ## Claim C8: exact-title unit overrides -/

/-- Claim C8: an exact override-table hit yields exactly one record with
the override's code and units verbatim and the cleaned title (no split);
in particular a course titled `"MATH 11"` comes out as code
`("MATH", "11")` with 5.0 units regardless of the source units. -/
theorem unit_override_single_record (ic : InputCourse) :
    (∀ code units,
      alookup unit_overrides ic.course.course_title = some (code, units) →
      processInput ic =
        [⟨clean_course_title ic.course.course_title, code, units,
          ic.major_course, ic.term⟩]) ∧
    (ic.course.course_title = "MATH 11" →
      processInput ic =
        [⟨"MATH 11", ("MATH", "11"), 5, ic.major_course, ic.term⟩]) := by
  constructor
  · intro code units hov
    simp only [processInput, hov, InputCourse.process, Option.getD_some,
      Option.getD_none]
  · intro htitle
    simp only [processInput, htitle, InputCourse.process, Option.getD_some,
      Option.getD_none]
    rw [show alookup unit_overrides "MATH 11" = some (("MATH", "11"), 5) from rfl]
    rw [show clean_course_title "MATH 11" = "MATH 11" from by decide]

/-! ## `OutputCourses`: ID assignment and enumeration (`output.py` 138-298) -/

/-- `output.py` lines 179-185: assign fresh IDs to codes not yet in the
table. (The Python guard `course.code and ...` never fails: `code` is
always a 2-tuple, and any tuple of arity 2 is truthy, including
`("", "")`.) -/
def assignIds : List ProcessedCourse → ℕ → List (CourseCode × ℕ) →
    ℕ × List (CourseCode × ℕ)
  | [], current, m => (current, m)
  | c :: rest, current, m =>
    if (alookup m c.code).isSome then assignIds rest current m
    else assignIds rest (current + 1) (m ++ [(c.code, current)])

/-- `output.py` lines 187-193: the keys of `duplicate_titles` are exactly
the titles occurring at least twice (a dict comprehension collapses
repeated keys). -/
def dupTitleKeys (titles : List String) : List String :=
  (titles.filter (fun t => 1 < titles.count t)).dedup

/-- The mutable loop state of `list_courses`: the next fresh ID, the
not-yet-used table codes, and the per-title duplicate counters. -/
structure ListState where
  current_id : ℕ
  claimed : List CourseCode
  dups : List (String × ℕ)

/-- `self.duplicate_titles[course_title] += 1`. -/
def bumpTitle : List (String × ℕ) → String → List (String × ℕ)
  | [], _ => []
  | (k, v) :: rest, t =>
    if k = t then (k, v + 1) :: rest else (k, v) :: bumpTitle rest t

/-- The immutable environment of one render pass: the course-ID table after
`__init__`, the prerequisite data (see the module docstring: the term-code
arithmetic of `output.py` line 281 composed with the external `prereqs`
table, indexed here by term index), the mode flag, and the full
chronological course list scanned by `find_prereq`. -/
structure RenderEnv where
  course_ids : List (CourseCode × ℕ)
  reqsTable : ℕ → CourseCode → List (List Prerequisite)
  degree_plan : Bool
  processed_all : List ProcessedCourse

inductive ReqBoundary
  | term : ℕ → ReqBoundary
  | title : String → ReqBoundary

/-- The inner `for code, concurrent in alternatives` loop of `find_prereq`. -/
def findAlt : List Prerequisite → CourseCode → Option Bool
  | [], _ => none
  | p :: rest, code =>
    if p.course_code = code then some p.allow_concurrent else findAlt rest code

/-- `output.py` lines 200-243 `find_prereq`: scan the chronological course
list, stop at the boundary (`term >= before` in degree-plan mode, first
equal title in curriculum mode), and return the shared-table ID of the
first course matching any alternative, with that alternative's concurrency
flag. The `course.code is None` guard of the source never fires (`process`
always builds a 2-tuple), and the table lookup cannot miss in any render
(`__init__` enters every processed code), hence the total `getD 0`. -/
def find_prereq (course_ids : List (CourseCode × ℕ)) (alts : List Prerequisite)
    (before : ReqBoundary) : List ProcessedCourse → Option (ℕ × Bool)
  | [] => none
  | c :: rest =>
    match before with
    | .term t =>
      if t ≤ c.term then none
      else
        match findAlt alts c.code with
        | some conc => some ((alookup course_ids c.code).getD 0, conc)
        | none => find_prereq course_ids alts before rest
    | .title s =>
      if c.course_title = s then none
      else
        match findAlt alts c.code with
        | some conc => some ((alookup course_ids c.code).getD 0, conc)
        | none => find_prereq course_ids alts before rest

/-- Append one `find_prereq` result to the `(prereq_ids, coreq_ids)`
accumulator pair. -/
def addReq (acc : List ℕ × List ℕ) (r : Option (ℕ × Bool)) : List ℕ × List ℕ :=
  match r with
  | some (i, conc) => if conc then (acc.1, acc.2 ++ [i]) else (acc.1 ++ [i], acc.2)
  | none => acc

/-- `output.py` lines 267-290: the requisite edges of one course. The
hard-coded non-course-prereq titles use the course's own title as boundary
even in degree-plan mode; `MATH 18` is excluded entirely; otherwise each
requirement group of the prerequisite table contributes at most one edge. -/
def courseReqs (env : RenderEnv) (c : ProcessedCourse) : List ℕ × List ℕ :=
  match alookup non_course_prereqs c.course_title with
  | some codes =>
    codes.foldl (fun acc code =>
      addReq acc (find_prereq env.course_ids [⟨code, false⟩]
        (ReqBoundary.title c.course_title) env.processed_all)) ([], [])
  | none =>
    if c.code = ("MATH", "18") then ([], [])
    else
      (env.reqsTable c.term c.code).foldl (fun acc alts =>
        addReq acc (find_prereq env.course_ids alts
          (if env.degree_plan then ReqBoundary.term c.term
           else ReqBoundary.title c.course_title) env.processed_all)) ([], [])

/-- One loop iteration of `list_courses` (`output.py` lines 256-298): claim
the table ID on a code's first use, otherwise issue a fresh ID; compute
the requisites; suffix a duplicate title with its incremented counter. -/
def stepCourse (env : RenderEnv) (st : ListState) (c : ProcessedCourse) :
    ListState × OutputCourse :=
  let idTriple :=
    if c.code ∈ st.claimed then
      ((alookup env.course_ids c.code).getD 0, st.claimed.erase c.code, st.current_id)
    else (st.current_id, st.claimed, st.current_id + 1)
  let reqs := courseReqs env c
  let titlePair :=
    match alookup st.dups c.course_title with
    | some n =>
      (c.course_title ++ " " ++ toString (n + 1), bumpTitle st.dups c.course_title)
    | none => (c.course_title, st.dups)
  (⟨idTriple.2.2, idTriple.2.1, titlePair.2⟩,
   ⟨idTriple.1, titlePair.1, c.code, reqs.1, reqs.2, c.units, c.term⟩)

/-- The `list_courses` generator (`output.py` lines 245-298); `show?` is
`show_major` (`none` yields every course). -/
def runList (env : RenderEnv) (show? : Option Bool) :
    ListState → List ProcessedCourse → ListState × List OutputCourse
  | st, [] => (st, [])
  | st, c :: rest =>
    if (match show? with | none => true | some b => c.major_course == b) then
      let p := stepCourse env st c
      let q := runList env show? p.1 rest
      (q.1, p.2 :: q.2)
    else runList env show? st rest

/-- `output.py` lines 138-197: the `OutputCourses` record after
`__init__`. The mutable parts consumed by `list_courses` are packaged into
`ListState` by `state0`. -/
structure OutputCourses where
  processed_courses : List ProcessedCourse
  current_id : ℕ
  course_ids : List (CourseCode × ℕ)
  duplicate_titles : List (String × ℕ)
  claimed_ids : List CourseCode
  degree_plan : Bool
  year : ℕ

def OutputCourses.init (processed : List ProcessedCourse) (start_id : ℕ)
    (course_ids0 : List (CourseCode × ℕ)) (degree_plan : Bool) (year : ℕ) :
    OutputCourses :=
  { processed_courses := processed
    current_id := (assignIds processed start_id course_ids0).1
    course_ids := (assignIds processed start_id course_ids0).2
    duplicate_titles :=
      (dupTitleKeys (processed.map (·.course_title))).map (fun t => (t, 0))
    claimed_ids := (assignIds processed start_id course_ids0).2.map Prod.fst
    degree_plan := degree_plan
    year := year }

def OutputCourses.env (oc : OutputCourses)
    (reqsTable : ℕ → CourseCode → List (List Prerequisite)) : RenderEnv :=
  ⟨oc.course_ids, reqsTable, oc.degree_plan, oc.processed_courses⟩

def OutputCourses.state0 (oc : OutputCourses) : ListState :=
  ⟨oc.current_id, oc.claimed_ids, oc.duplicate_titles⟩

/-- One full enumeration, `list_courses(None)`: every course is yielded. -/
def OutputCourses.listAll (reqsTable : ℕ → CourseCode → List (List Prerequisite))
    (oc : OutputCourses) : List OutputCourse :=
  (runList (oc.env reqsTable) none oc.state0 oc.processed_courses).2

/-- The enumeration order used by `output_plan`/`output_json`
(`output.py` lines 476-489 and 518-529): the major section first, then,
for a degree plan only, the additional-courses section, threading the
mutable state through both generator runs. -/
def OutputCourses.render (reqsTable : ℕ → CourseCode → List (List Prerequisite))
    (oc : OutputCourses) : List OutputCourse :=
  let env := oc.env reqsTable
  if oc.degree_plan then
    let first := runList env (some true) oc.state0 oc.processed_courses
    first.2 ++ (runList env (some false) first.1 oc.processed_courses).2
  else
    (runList env (some true) oc.state0 oc.processed_courses).2

/-! ## Association-list and `assignIds` facts -/

theorem alookup_mem {α β : Type} [DecidableEq α] {m : List (α × β)} {x : α} {v : β}
    (h : alookup m x = some v) : (x, v) ∈ m := by
  induction m with
  | nil => cases h
  | cons p rest ih =>
    obtain ⟨k, w⟩ := p
    unfold alookup at h
    split at h
    · cases h
      rename_i hk
      subst hk
      exact List.mem_cons_self _ _
    · exact List.mem_cons_of_mem _ (ih h)

theorem alookup_isSome_of_mem_keys {α β : Type} [DecidableEq α]
    {m : List (α × β)} {x : α} (h : x ∈ m.map Prod.fst) :
    ∃ v, alookup m x = some v := by
  induction m with
  | nil => cases h
  | cons p rest ih =>
    obtain ⟨k, w⟩ := p
    by_cases hk : k = x
    · exact ⟨w, by simp [alookup, hk]⟩
    · have hx : x ∈ rest.map Prod.fst := by
        simp only [List.map_cons, List.mem_cons] at h
        rcases h with h | h
        · exact absurd h.symm hk
        · exact h
      obtain ⟨v, hv⟩ := ih hx
      exact ⟨v, by simp [alookup, hk, hv]⟩

theorem alookup_append_left {α β : Type} [DecidableEq α]
    {m : List (α × β)} {x : α} {v : β} (h : alookup m x = some v) (m2 : List (α × β)) :
    alookup (m ++ m2) x = some v := by
  induction m with
  | nil => cases h
  | cons p rest ih =>
    obtain ⟨k, w⟩ := p
    unfold alookup at h
    rw [List.cons_append]
    unfold alookup
    split at h <;> split <;> simp_all

theorem alookup_append_right {α β : Type} [DecidableEq α]
    {m : List (α × β)} {x : α} (h : alookup m x = none) (m2 : List (α × β)) :
    alookup (m ++ m2) x = alookup m2 x := by
  induction m with
  | nil => rfl
  | cons p rest ih =>
    obtain ⟨k, w⟩ := p
    rw [alookup_cons] at h
    rw [List.cons_append, alookup_cons]
    by_cases hk : k = x
    · rw [if_pos hk] at h; cases h
    · rw [if_neg hk] at h ⊢; exact ih h

theorem assignIds_current_mono (l : List ProcessedCourse) (current : ℕ)
    (m : List (CourseCode × ℕ)) : current ≤ (assignIds l current m).1 := by
  induction l generalizing current m with
  | nil => exact le_refl _
  | cons c rest ih =>
    unfold assignIds
    split
    · exact ih current m
    · exact le_trans (Nat.le_succ _) (ih (current + 1) _)

theorem assignIds_vals_lt (l : List ProcessedCourse) (current : ℕ)
    (m : List (CourseCode × ℕ)) (hm : ∀ p ∈ m, p.2 < current) :
    ∀ p ∈ (assignIds l current m).2, p.2 < (assignIds l current m).1 := by
  induction l generalizing current m with
  | nil =>
    intro p hp
    exact hm p hp
  | cons c rest ih =>
    unfold assignIds
    split
    · exact ih current m hm
    · refine ih (current + 1) _ ?_
      intro p hp
      rcases List.mem_append.1 hp with h | h
      · exact lt_trans (hm p h) (Nat.lt_succ_self _)
      · rcases List.mem_singleton.1 h with rfl
        exact Nat.lt_succ_self _

theorem assignIds_nodup_keys (l : List ProcessedCourse) (current : ℕ)
    (m : List (CourseCode × ℕ)) (hm : (m.map Prod.fst).Nodup) :
    ((assignIds l current m).2.map Prod.fst).Nodup := by
  induction l generalizing current m with
  | nil => exact hm
  | cons c rest ih =>
    unfold assignIds
    split
    · exact ih current m hm
    · refine ih (current + 1) _ ?_
      rename_i hnone
      rw [List.map_append]
      simp only [List.map_cons, List.map_nil]
      rw [List.nodup_append]
      refine ⟨hm, List.nodup_singleton _, ?_⟩
      intro a ha hb
      rcases List.mem_singleton.1 hb with rfl
      obtain ⟨v, hv⟩ := alookup_isSome_of_mem_keys ha
      rw [hv] at hnone
      simp at hnone

theorem assignIds_keeps (l : List ProcessedCourse) (current : ℕ)
    (m : List (CourseCode × ℕ)) {x : CourseCode} {v : ℕ}
    (h : alookup m x = some v) :
    alookup (assignIds l current m).2 x = some v := by
  induction l generalizing current m with
  | nil => exact h
  | cons c rest ih =>
    unfold assignIds
    split
    · exact ih current m h
    · exact ih (current + 1) _ (alookup_append_left h _)

theorem assignIds_covers (l : List ProcessedCourse) (current : ℕ)
    (m : List (CourseCode × ℕ)) {c : ProcessedCourse} (hc : c ∈ l) :
    ∃ v, alookup (assignIds l current m).2 c.code = some v := by
  induction l generalizing current m with
  | nil => cases hc
  | cons d rest ih =>
    rcases List.mem_cons.1 hc with rfl | hmem
    · unfold assignIds
      split
      · rename_i hsome
        obtain ⟨v, hv⟩ := Option.isSome_iff_exists.1 hsome
        exact ⟨v, assignIds_keeps rest current m hv⟩
      · rename_i hnone
        have hnone2 : alookup m c.code = none :=
          Option.not_isSome_iff_eq_none.1 hnone
        refine ⟨current, assignIds_keeps rest (current + 1) _ ?_⟩
        rw [alookup_append_right hnone2]
        unfold alookup
        simp
    · unfold assignIds
      split
      · exact ih current m hmem
      · exact ih (current + 1) _ hmem

/-! ## `runList` enumeration facts -/

theorem runList_none_cons (env : RenderEnv) (st : ListState)
    (c : ProcessedCourse) (rest : List ProcessedCourse) :
    runList env none st (c :: rest) =
      ((runList env none (stepCourse env st c).1 rest).1,
       (stepCourse env st c).2 :: (runList env none (stepCourse env st c).1 rest).2) := by
  simp [runList]

theorem runList_none_length (env : RenderEnv) (st : ListState)
    (l : List ProcessedCourse) :
    (runList env none st l).2.length = l.length := by
  induction l generalizing st with
  | nil => rfl
  | cons c rest ih =>
    rw [runList_none_cons]
    simp [ih]

theorem stepCourse_code (env : RenderEnv) (st : ListState) (c : ProcessedCourse) :
    ((stepCourse env st c).2).code = c.code := by
  unfold stepCourse
  by_cases h : c.code ∈ st.claimed <;> simp [h]

theorem stepCourse_current_le (env : RenderEnv) (st : ListState) (c : ProcessedCourse) :
    st.current_id ≤ (stepCourse env st c).1.current_id := by
  unfold stepCourse
  by_cases h : c.code ∈ st.claimed <;> simp [h]

theorem stepCourse_claimed_subset (env : RenderEnv) (st : ListState)
    (c : ProcessedCourse) : (stepCourse env st c).1.claimed ⊆ st.claimed := by
  unfold stepCourse
  by_cases h : c.code ∈ st.claimed <;> simp [h]
  exact List.erase_subset _ _

theorem stepCourse_claimed_nodup (env : RenderEnv) (st : ListState)
    (c : ProcessedCourse) (h : st.claimed.Nodup) :
    (stepCourse env st c).1.claimed.Nodup := by
  unfold stepCourse
  by_cases hm : c.code ∈ st.claimed <;> simp [hm]
  · exact h.erase _
  · exact h

theorem stepCourse_own_code_gone (env : RenderEnv) (st : ListState)
    (c : ProcessedCourse) (h : st.claimed.Nodup) :
    c.code ∉ (stepCourse env st c).1.claimed := by
  unfold stepCourse
  by_cases hm : c.code ∈ st.claimed <;> simp [hm]
  intro hcontr
  exact ((h.mem_erase_iff).1 hcontr).1 rfl

theorem runList_none_code (env : RenderEnv) :
    ∀ (l : List ProcessedCourse) (st : ListState) (k : ℕ)
      (hk : k < (runList env none st l).2.length),
      ((runList env none st l).2.get ⟨k, hk⟩).code =
        (l.get ⟨k, by rw [← runList_none_length env st l]; exact hk⟩).code := by
  intro l
  induction l with
  | nil => intro st k hk; rw [runList_none_length] at hk; cases hk
  | cons c rest ih =>
    intro st k hk
    cases k with
    | zero =>
      have h0 := runList_none_cons env st c rest
      simp only [h0, List.get]
      exact stepCourse_code env st c
    | succ k =>
      have h0 := runList_none_cons env st c rest
      simp only [h0, List.get]
      exact ih (stepCourse env st c).1 k _

/-- Fresh-ID lower bound: once a code is no longer claimed, every later
output course bearing it receives an ID at least as large as the current
fresh-ID cursor. -/
theorem runList_fresh_ge (env : RenderEnv) {x : CourseCode} :
    ∀ (l : List ProcessedCourse) (st : ListState), x ∉ st.claimed →
      ∀ (k : ℕ) (hk : k < (runList env none st l).2.length),
        ((runList env none st l).2.get ⟨k, hk⟩).code = x →
        st.current_id ≤ ((runList env none st l).2.get ⟨k, hk⟩).course_id := by
  intro l
  induction l with
  | nil => intro st _ k hk; rw [runList_none_length] at hk; cases hk
  | cons c rest ih =>
    intro st hx k hk hcode
    have h0 := runList_none_cons env st c rest
    cases k with
    | zero =>
      simp only [h0, List.get] at hcode ⊢
      rw [stepCourse_code] at hcode
      subst hcode
      unfold stepCourse
      rw [if_neg hx]
    | succ k =>
      simp only [h0, List.get] at hcode ⊢
      refine le_trans (stepCourse_current_le env st c) ?_
      refine ih (stepCourse env st c).1 ?_ k _ hcode
      intro hcontr
      exact hx (stepCourse_claimed_subset env st c hcontr)

theorem stepCourse_mem_claimed_of_ne (env : RenderEnv) (st : ListState)
    (c : ProcessedCourse) {x : CourseCode} (hne : x ≠ c.code) (hx : x ∈ st.claimed) :
    x ∈ (stepCourse env st c).1.claimed := by
  unfold stepCourse
  by_cases hm : c.code ∈ st.claimed <;> simp [hm]
  · exact (List.mem_erase_of_ne hne).2 hx
  · exact hx

/-- Two courses with the same code in one full enumeration get strictly
increasing IDs: the first occurrence takes the table ID (bounded by `B`),
later ones take fresh cursor values. -/
theorem runList_none_increasing (env : RenderEnv) (B : ℕ)
    (hvals : ∀ p ∈ env.course_ids, p.2 < B) :
    ∀ (l : List ProcessedCourse) (st : ListState),
      st.claimed.Nodup →
      (∀ x ∈ st.claimed, x ∈ env.course_ids.map Prod.fst) →
      B ≤ st.current_id →
      ∀ i j (hi : i < (runList env none st l).2.length)
        (hj : j < (runList env none st l).2.length), i < j →
        ((runList env none st l).2.get ⟨i, hi⟩).code =
          ((runList env none st l).2.get ⟨j, hj⟩).code →
        ((runList env none st l).2.get ⟨i, hi⟩).course_id <
          ((runList env none st l).2.get ⟨j, hj⟩).course_id := by
  intro l
  induction l with
  | nil =>
    intro st _ _ _ i j hi hj _ _
    rw [runList_none_length] at hj
    cases hj
  | cons c rest ih =>
    intro st hnd hkeys hB i j hi hj hij hcode
    have h0 := runList_none_cons env st c rest
    cases j with
    | zero => cases hij
    | succ j =>
      cases i with
      | zero =>
        simp only [h0, List.get] at hcode ⊢
        rw [stepCourse_code] at hcode
        have hgone : c.code ∉ (stepCourse env st c).1.claimed :=
          stepCourse_own_code_gone env st c hnd
        have hge := runList_fresh_ge env rest (stepCourse env st c).1 hgone j
          (by simpa [h0] using hj) hcode.symm
        by_cases hc : c.code ∈ st.claimed
        · have hid : (stepCourse env st c).2.course_id
              = (alookup env.course_ids c.code).getD 0 := by
            simp [stepCourse, hc]
          have hcur : (stepCourse env st c).1.current_id = st.current_id := by
            simp [stepCourse, hc]
          obtain ⟨v, hv⟩ := alookup_isSome_of_mem_keys (hkeys c.code hc)
          have hvB : v < B := hvals _ (alookup_mem hv)
          rw [hid, hv]
          simp only [Option.getD_some]
          rw [hcur] at hge
          omega
        · have hid : (stepCourse env st c).2.course_id = st.current_id := by
            simp [stepCourse, hc]
          have hcur : (stepCourse env st c).1.current_id = st.current_id + 1 := by
            simp [stepCourse, hc]
          rw [hid]
          rw [hcur] at hge
          omega
      | succ i =>
        simp only [h0, List.get] at hcode ⊢
        refine ih (stepCourse env st c).1 (stepCourse_claimed_nodup env st c hnd)
          (fun x hx => hkeys x (stepCourse_claimed_subset env st c hx))
          (le_trans hB (stepCourse_current_le env st c)) i j _ _
          (Nat.lt_of_succ_lt_succ hij) hcode

/-- The first enumerated course bearing a claimed code receives exactly the
shared-table ID of that code. -/
theorem runList_none_first_code_id (env : RenderEnv) :
    ∀ (l : List ProcessedCourse) (st : ListState) {x : CourseCode} {v : ℕ},
      x ∈ st.claimed → alookup env.course_ids x = some v →
      ∀ k (hk : k < l.length),
        (l.get ⟨k, hk⟩).code = x →
        (∀ i (hi : i < k), (l.get ⟨i, lt_trans hi hk⟩).code ≠ x) →
        ((runList env none st l).2.get
          ⟨k, by rw [runList_none_length]; exact hk⟩).course_id = v := by
  intro l
  induction l with
  | nil => intro st x v _ _ k hk; cases hk
  | cons c rest ih =>
    intro st x v hclaim hv k hk hcode hfirst
    have h0 := runList_none_cons env st c rest
    cases k with
    | zero =>
      simp only [List.get] at hcode
      simp only [h0, List.get]
      subst hcode
      have hid : (stepCourse env st c).2.course_id
          = (alookup env.course_ids c.code).getD 0 := by
        simp [stepCourse, hclaim]
      rw [hid, hv]
      rfl
    | succ k =>
      simp only [List.get] at hcode
      simp only [h0, List.get]
      have hne : x ≠ c.code := by
        have := hfirst 0 (Nat.succ_pos k)
        simp only [List.get] at this
        exact fun hx => this (hx.symm)
      refine ih (stepCourse env st c).1
        (stepCourse_mem_claimed_of_ne env st c hne hclaim) hv k
        (Nat.lt_of_succ_lt_succ hk) hcode ?_
      intro i hi
      have := hfirst (i + 1) (Nat.succ_lt_succ hi)
      simp only [List.get] at this
      exact this

/-- Claim C2, counterexample to the claim as stated: in one render pass
(one `list_courses` enumeration) two processed courses sharing the
non-empty code `("CSE", "11")` receive the IDs 1 and 2 — not the same ID.
The first occurrence claims the table ID; the second finds the code no
longer in `claimed_ids` and is handed a brand-new ID. -/
theorem same_code_same_id_refuted :
    (((OutputCourses.init
        [⟨"CSE 11", ("CSE", "11"), 4, true, 0⟩,
         ⟨"CSE 11", ("CSE", "11"), 4, true, 1⟩] 1 [] false 2021).listAll
        (fun _ _ => [])).map OutputCourse.code
      = [("CSE", "11"), ("CSE", "11")]) ∧
    (((OutputCourses.init
        [⟨"CSE 11", ("CSE", "11"), 4, true, 0⟩,
         ⟨"CSE 11", ("CSE", "11"), 4, true, 1⟩] 1 [] false 2021).listAll
        (fun _ _ => [])).map OutputCourse.course_id
      = [1, 2]) := by
  constructor <;> decide

/-- Claim C2 (amended): within one render pass, occurrences of the same
course code receive strictly increasing (hence pairwise distinct) IDs: the
first occurrence reuses the shared-table ID and each later occurrence gets
a brand-new larger ID, provided the seed table has unique keys and only
IDs below `start_id` (true of every table `MajorOutput` builds). -/
theorem same_code_increasing_ids
    (processed : List ProcessedCourse) (start_id year : ℕ)
    (cids0 : List (CourseCode × ℕ)) (degree_plan : Bool)
    (reqsTable : ℕ → CourseCode → List (List Prerequisite))
    (hnodup : (cids0.map Prod.fst).Nodup)
    (hbound : ∀ p ∈ cids0, p.2 < start_id)
    (i j : ℕ)
    (hi : i < ((OutputCourses.init processed start_id cids0 degree_plan
      year).listAll reqsTable).length)
    (hj : j < ((OutputCourses.init processed start_id cids0 degree_plan
      year).listAll reqsTable).length)
    (hij : i < j)
    (hcode : (((OutputCourses.init processed start_id cids0 degree_plan
        year).listAll reqsTable).get ⟨i, hi⟩).code
      = (((OutputCourses.init processed start_id cids0 degree_plan
        year).listAll reqsTable).get ⟨j, hj⟩).code) :
    (((OutputCourses.init processed start_id cids0 degree_plan
        year).listAll reqsTable).get ⟨i, hi⟩).course_id
      < (((OutputCourses.init processed start_id cids0 degree_plan
        year).listAll reqsTable).get ⟨j, hj⟩).course_id := by
  refine runList_none_increasing
    ((OutputCourses.init processed start_id cids0 degree_plan year).env reqsTable)
    ((assignIds processed start_id cids0).1)
    ?_ processed
    ((OutputCourses.init processed start_id cids0 degree_plan year).state0)
    ?_ ?_ ?_ i j hi hj hij hcode
  · exact assignIds_vals_lt processed start_id cids0 hbound
  · exact assignIds_nodup_keys processed start_id cids0 hnodup
  · intro x hx
    exact hx
  · exact le_refl _

/-- Witness for the amended claim C2: the counterexample input, where the
theorem instantiates to `1 < 2`. -/
theorem same_code_increasing_ids_witness :
    (((OutputCourses.init
        [⟨"CSE 11", ("CSE", "11"), 4, true, 0⟩,
         ⟨"CSE 11", ("CSE", "11"), 4, true, 1⟩] 1 [] false 2021).listAll
        (fun _ _ => [])).get ⟨0, by decide⟩).course_id
      < (((OutputCourses.init
        [⟨"CSE 11", ("CSE", "11"), 4, true, 0⟩,
         ⟨"CSE 11", ("CSE", "11"), 4, true, 1⟩] 1 [] false 2021).listAll
        (fun _ _ => [])).get ⟨1, by decide⟩).course_id :=
  same_code_increasing_ids
    [⟨"CSE 11", ("CSE", "11"), 4, true, 0⟩, ⟨"CSE 11", ("CSE", "11"), 4, true, 1⟩]
    1 2021 [] false (fun _ _ => []) (by decide) (by intro p hp; cases hp)
    0 1 (by decide) (by decide) (by decide) (by decide)

/-! ## Duplicate-title counters (claim C7) -/

theorem alookup_bumpTitle_self {d : List (String × ℕ)} {t : String} {n : ℕ}
    (h : alookup d t = some n) : alookup (bumpTitle d t) t = some (n + 1) := by
  induction d with
  | nil => cases h
  | cons p rest ih =>
    obtain ⟨k, v⟩ := p
    rw [alookup_cons] at h
    by_cases hk : k = t
    · rw [if_pos hk] at h
      cases h
      unfold bumpTitle
      rw [if_pos hk, alookup_cons, if_pos hk]
    · rw [if_neg hk] at h
      unfold bumpTitle
      rw [if_neg hk, alookup_cons, if_neg hk]
      exact ih h

theorem alookup_bumpTitle_other {d : List (String × ℕ)} {s t : String}
    (hne : s ≠ t) : alookup (bumpTitle d s) t = alookup d t := by
  induction d with
  | nil => rfl
  | cons p rest ih =>
    obtain ⟨k, v⟩ := p
    unfold bumpTitle
    by_cases hk : k = s
    · rw [if_pos hk, alookup_cons, alookup_cons]
      have : ¬(k = t) := by rw [hk]; exact hne
      rw [if_neg this, if_neg this]
    · rw [if_neg hk, alookup_cons, alookup_cons]
      by_cases ht : k = t
      · rw [if_pos ht, if_pos ht]
      · rw [if_neg ht, if_neg ht]
        exact ih

theorem stepCourse_dups_other (env : RenderEnv) (st : ListState)
    (c : ProcessedCourse) {t : String} (hne : c.course_title ≠ t) :
    alookup (stepCourse env st c).1.dups t = alookup st.dups t := by
  unfold stepCourse
  cases hd : alookup st.dups c.course_title <;> simp [hd]
  exact alookup_bumpTitle_other hne

theorem stepCourse_dups_self (env : RenderEnv) (st : ListState)
    (c : ProcessedCourse) {n : ℕ} (h : alookup st.dups c.course_title = some n) :
    alookup (stepCourse env st c).1.dups c.course_title = some (n + 1) := by
  unfold stepCourse
  simp [h]
  exact alookup_bumpTitle_self h

theorem stepCourse_title_of_dup (env : RenderEnv) (st : ListState)
    (c : ProcessedCourse) {n : ℕ} (h : alookup st.dups c.course_title = some n) :
    (stepCourse env st c).2.course_title
      = c.course_title ++ " " ++ toString (n + 1) := by
  unfold stepCourse
  simp [h]

/-- In one full enumeration, a title tracked by the duplicate counter at
value `n` and occurring exactly once (at index `k`) is rendered with
suffix `n + 1`. -/
theorem runList_one_title (env : RenderEnv) :
    ∀ (l : List ProcessedCourse) (st : ListState) (t : String) (n : ℕ),
      alookup st.dups t = some n →
      ∀ k (hk : k < l.length), (l.get ⟨k, hk⟩).course_title = t →
        (∀ m (hm : m < l.length), m ≠ k → (l.get ⟨m, hm⟩).course_title ≠ t) →
        ((runList env none st l).2.get
          ⟨k, by rw [runList_none_length]; exact hk⟩).course_title
          = t ++ " " ++ toString (n + 1) := by
  intro l
  induction l with
  | nil => intro st t n _ k hk; cases hk
  | cons c rest ih =>
    intro st t n hd k hk ht hothers
    have h0 := runList_none_cons env st c rest
    cases k with
    | zero =>
      simp only [List.get] at ht
      simp only [h0, List.get]
      subst ht
      exact stepCourse_title_of_dup env st c hd
    | succ k =>
      simp only [List.get] at ht
      simp only [h0, List.get]
      have hcne : c.course_title ≠ t := by
        have := hothers 0 (Nat.succ_pos _) (by simp)
        simpa using this
      refine ih (stepCourse env st c).1 t n ?_ k (Nat.lt_of_succ_lt_succ hk) ht ?_
      · rw [stepCourse_dups_other env st c hcne]
        exact hd
      · intro m hm hmne
        have := hothers (m + 1) (Nat.succ_lt_succ hm) (by simpa using hmne)
        simpa using this

/-- In one full enumeration, a title tracked by the duplicate counter at
value `n` and occurring exactly twice (at `i < j`) is rendered with
suffixes `n + 1` and `n + 2`, in order of appearance. -/
theorem runList_two_titles (env : RenderEnv) :
    ∀ (l : List ProcessedCourse) (st : ListState) (t : String) (n : ℕ),
      alookup st.dups t = some n →
      ∀ i j (hi : i < l.length) (hj : j < l.length), i < j →
        (l.get ⟨i, hi⟩).course_title = t → (l.get ⟨j, hj⟩).course_title = t →
        (∀ m (hm : m < l.length), m ≠ i → m ≠ j → (l.get ⟨m, hm⟩).course_title ≠ t) →
        ((runList env none st l).2.get
            ⟨i, by rw [runList_none_length]; exact hi⟩).course_title
          = t ++ " " ++ toString (n + 1) ∧
        ((runList env none st l).2.get
            ⟨j, by rw [runList_none_length]; exact hj⟩).course_title
          = t ++ " " ++ toString (n + 2) := by
  intro l
  induction l with
  | nil => intro st t n _ i j hi hj; cases hi
  | cons c rest ih =>
    intro st t n hd i j hi hj hij hti htj hothers
    have h0 := runList_none_cons env st c rest
    cases j with
    | zero => cases hij
    | succ j =>
      cases i with
      | zero =>
        simp only [List.get] at hti htj
        simp only [h0, List.get]
        subst hti
        refine ⟨stepCourse_title_of_dup env st c hd, ?_⟩
        have hd2 := stepCourse_dups_self env st c hd
        refine runList_one_title env rest (stepCourse env st c).1 c.course_title
          (n + 1) hd2 j (Nat.lt_of_succ_lt_succ hj) htj ?_
        intro m hm hmne
        have := hothers (m + 1) (Nat.succ_lt_succ hm) (by simp) (by simpa using hmne)
        simpa using this
      | succ i =>
        simp only [List.get] at hti htj
        simp only [h0, List.get]
        have hcne : c.course_title ≠ t := by
          have := hothers 0 (Nat.succ_pos _) (by simp) (by simp)
          simpa using this
        refine ih (stepCourse env st c).1 t n ?_ i j (Nat.lt_of_succ_lt_succ hi)
          (Nat.lt_of_succ_lt_succ hj) (Nat.lt_of_succ_lt_succ hij) hti htj ?_
        · rw [stepCourse_dups_other env st c hcne]
          exact hd
        · intro m hm hm1 hm2
          have := hothers (m + 1) (Nat.succ_lt_succ hm) (by simpa using hm1)
            (by simpa using hm2)
          simpa using this

theorem alookup_const_map {keys : List String} {t : String} (h : t ∈ keys) :
    alookup (keys.map (fun s => (s, 0))) t = some 0 := by
  induction keys with
  | nil => cases h
  | cons k rest ih =>
    simp only [List.map_cons]
    rw [alookup_cons]
    by_cases hk : k = t
    · rw [if_pos hk]
    · rw [if_neg hk]
      exact ih (by rcases List.mem_cons.1 h with rfl | hmem
                   · exact absurd rfl hk
                   · exact hmem)

theorem string_append_assoc (a b c : String) : a ++ b ++ c = a ++ (b ++ c) := by
  refine String.ext ?_
  rw [String.data_append, String.data_append, String.data_append,
    String.data_append, List.append_assoc]

theorem two_occurrences_count {T : List String} {t : String} :
    ∀ (i j : ℕ) (hi : i < T.length) (hj : j < T.length), i < j →
      T.get ⟨i, hi⟩ = t → T.get ⟨j, hj⟩ = t → 1 < T.count t := by
  induction T with
  | nil => intro i j hi; cases hi
  | cons x rest ih =>
    intro i j hi hj hij hti htj
    cases j with
    | zero => cases hij
    | succ j =>
      cases i with
      | zero =>
        simp only [List.get] at hti htj
        subst hti
        have hmem : x ∈ rest := htj ▸ List.get_mem rest _ _
        have : 0 < rest.count x := List.count_pos_iff.2 hmem
        rw [List.count_cons]
        simp only [beq_self_eq_true, if_true]
        omega
      | succ i =>
        simp only [List.get] at hti htj
        have := ih i j (Nat.lt_of_succ_lt_succ hi) (Nat.lt_of_succ_lt_succ hj)
          (Nat.lt_of_succ_lt_succ hij) hti htj
        calc 1 < rest.count t := this
          _ ≤ (x :: rest).count t := by rw [List.count_cons]; omega

theorem mem_dupTitleKeys {T : List String} {t : String} (h : 1 < T.count t) :
    t ∈ dupTitleKeys T := by
  unfold dupTitleKeys
  rw [List.mem_dedup, List.mem_filter]
  have hmem : t ∈ T := by
    have : 0 < T.count t := by omega
    exact List.count_pos_iff.1 this
  exact ⟨hmem, by simpa using h⟩

/-- Claim C7: in one render enumeration, if a title `t` occurs on exactly
two processed courses (both with the empty "unparseable" code), the two
output courses carry the titles `t ++ " 1"` and `t ++ " 2"` in order of
appearance (the counter starts at 0 and is incremented before use, so the
first occurrence is suffixed too) and distinct integer IDs (seed-table
hypotheses as in the ID-assignment invariant). -/
theorem duplicate_title_suffixes_and_distinct_ids
    (processed : List ProcessedCourse) (start_id year : ℕ)
    (cids0 : List (CourseCode × ℕ)) (degree_plan : Bool)
    (reqsTable : ℕ → CourseCode → List (List Prerequisite))
    (hnodup : (cids0.map Prod.fst).Nodup)
    (hbound : ∀ p ∈ cids0, p.2 < start_id)
    (t : String) (i j : ℕ) (hi : i < processed.length) (hj : j < processed.length)
    (hij : i < j)
    (hti : (processed.get ⟨i, hi⟩).course_title = t)
    (htj : (processed.get ⟨j, hj⟩).course_title = t)
    (hothers : ∀ m (hm : m < processed.length), m ≠ i → m ≠ j →
      (processed.get ⟨m, hm⟩).course_title ≠ t)
    (hci : (processed.get ⟨i, hi⟩).code = ("", ""))
    (hcj : (processed.get ⟨j, hj⟩).code = ("", "")) :
    (((OutputCourses.init processed start_id cids0 degree_plan year).listAll
        reqsTable).get ⟨i, by
          simp only [OutputCourses.listAll, runList_none_length]
          exact hi⟩).course_title = t ++ " 1" ∧
    (((OutputCourses.init processed start_id cids0 degree_plan year).listAll
        reqsTable).get ⟨j, by
          simp only [OutputCourses.listAll, runList_none_length]
          exact hj⟩).course_title = t ++ " 2" ∧
    (((OutputCourses.init processed start_id cids0 degree_plan year).listAll
        reqsTable).get ⟨i, by
          simp only [OutputCourses.listAll, runList_none_length]
          exact hi⟩).course_id ≠
      (((OutputCourses.init processed start_id cids0 degree_plan year).listAll
        reqsTable).get ⟨j, by
          simp only [OutputCourses.listAll, runList_none_length]
          exact hj⟩).course_id := by
  have hc2 : 1 < (processed.map (fun c => c.course_title)).count t := by
    refine two_occurrences_count i j (by simp only [List.length_map]; exact hi)
      (by simp only [List.length_map]; exact hj) hij ?_ ?_
    · rw [List.get_map]; exact hti
    · rw [List.get_map]; exact htj
  have hdup0 : alookup
      (OutputCourses.init processed start_id cids0 degree_plan year).state0.dups t
      = some 0 := by
    simp only [OutputCourses.state0, OutputCourses.init]
    exact alookup_const_map (mem_dupTitleKeys hc2)
  have htitles := runList_two_titles
    ((OutputCourses.init processed start_id cids0 degree_plan year).env reqsTable)
    processed
    (OutputCourses.init processed start_id cids0 degree_plan year).state0
    t 0 hdup0 i j hi hj hij hti htj hothers
  have hlt : (((OutputCourses.init processed start_id cids0 degree_plan
      year).listAll reqsTable).get ⟨i, by
        simp only [OutputCourses.listAll, runList_none_length]; exact hi⟩).course_id
      < (((OutputCourses.init processed start_id cids0 degree_plan
      year).listAll reqsTable).get ⟨j, by
        simp only [OutputCourses.listAll, runList_none_length]; exact hj⟩).course_id := by
    refine runList_none_increasing
      ((OutputCourses.init processed start_id cids0 degree_plan year).env reqsTable)
      ((assignIds processed start_id cids0).1)
      (assignIds_vals_lt processed start_id cids0 hbound) processed
      ((OutputCourses.init processed start_id cids0 degree_plan year).state0)
      (assignIds_nodup_keys processed start_id cids0 hnodup)
      (fun x hx => hx) (le_refl _) i j ?_ ?_ hij ?_
    have hcodei := runList_none_code
      ((OutputCourses.init processed start_id cids0 degree_plan year).env reqsTable)
      processed
      (OutputCourses.init processed start_id cids0 degree_plan year).state0 i
      (by rw [runList_none_length]; exact hi)
    have hcodej := runList_none_code
      ((OutputCourses.init processed start_id cids0 degree_plan year).env reqsTable)
      processed
      (OutputCourses.init processed start_id cids0 degree_plan year).state0 j
      (by rw [runList_none_length]; exact hj)
    rw [hcodei, hcodej, hci, hcj]
  have hone : t ++ " " ++ toString (0 + 1) = t ++ " 1" := by
    rw [string_append_assoc]
    rfl
  have htwo : t ++ " " ++ toString (0 + 2) = t ++ " 2" := by
    rw [string_append_assoc]
    rfl
  exact ⟨hone ▸ htitles.1, htwo ▸ htitles.2, Nat.ne_of_lt hlt⟩

/-- Witness for claim C7: two processed courses both titled `"GE"` with no
parseable code render as `"GE 1"` and `"GE 2"` with distinct IDs. -/
theorem duplicate_title_suffixes_witness :
    (((OutputCourses.init
        [⟨"GE", ("", ""), 4, true, 0⟩, ⟨"GE", ("", ""), 4, true, 0⟩]
        1 [] false 2021).listAll (fun _ _ => [])).get
          ⟨0, by decide⟩).course_title = "GE 1" ∧
    (((OutputCourses.init
        [⟨"GE", ("", ""), 4, true, 0⟩, ⟨"GE", ("", ""), 4, true, 0⟩]
        1 [] false 2021).listAll (fun _ _ => [])).get
          ⟨1, by decide⟩).course_title = "GE 2" ∧
    (((OutputCourses.init
        [⟨"GE", ("", ""), 4, true, 0⟩, ⟨"GE", ("", ""), 4, true, 0⟩]
        1 [] false 2021).listAll (fun _ _ => [])).get
          ⟨0, by decide⟩).course_id ≠
      (((OutputCourses.init
        [⟨"GE", ("", ""), 4, true, 0⟩, ⟨"GE", ("", ""), 4, true, 0⟩]
        1 [] false 2021).listAll (fun _ _ => [])).get
          ⟨1, by decide⟩).course_id :=
  duplicate_title_suffixes_and_distinct_ids
    [⟨"GE", ("", ""), 4, true, 0⟩, ⟨"GE", ("", ""), 4, true, 0⟩]
    1 2021 [] false (fun _ _ => []) (by decide) (by intro p hp; cases hp)
    "GE" 0 1 (by decide) (by decide) (by decide) (by decide) (by decide)
    (by decide) (by decide) (by decide)

/-- Witness for claim C4: `"PHYS 1A&1AL"` (4 units in the source data)
splits into `PHYS 1A` at 3 units and `PHYS 1AL` at 2 units. -/
theorem lab_split_two_records_witness :
    processInput ⟨⟨"PHYS 1A&1AL", 4, "DEPARTMENT", false⟩, true, 3⟩
      = [⟨"PHYS 1A", ("PHYS", "1A"), 3, true, 3⟩,
         ⟨"PHYS 1AL", ("PHYS", "1AL"), 2, true, 3⟩] :=
  lab_split_two_records ⟨⟨"PHYS 1A&1AL", 4, "DEPARTMENT", false⟩, true, 3⟩
    "PHYS" "1A" 'L' (by decide) (by decide)

/-- Witness for claim C8: `"MATH 11"` listed at 4 units comes out as one
record, code `("MATH", "11")`, 5 units. -/
theorem unit_override_single_record_witness :
    processInput ⟨⟨"MATH 11", 4, "DEPARTMENT", false⟩, true, 2⟩
      = [⟨"MATH 11", ("MATH", "11"), 5, true, 2⟩] :=
  (unit_override_single_record ⟨⟨"MATH 11", 4, "DEPARTMENT", false⟩, true, 2⟩).2 rfl

/-- Witness for claim C9: `"PHYS 1A&1AL"` parses to `("PHYS", "1A")`, and
re-parsing the rebuilt `"PHYS 1A"` gives the same pair with no suffix. -/
theorem parse_course_name_roundtrip_witness :
    parse_course_name ("PHYS" ++ " " ++ "1A") = some ("PHYS", "1A", none) :=
  parse_course_name_roundtrip
    (show parse_course_name "PHYS 1A&1AL" = some ("PHYS", "1A", some 'L') by decide)

/-! ## `MajorPlans` and `MajorOutput` (`parse.py` 198-258, `output.py` 346-583)

Python exceptions are embedded as `Except String`; a `KeyError(x)` carries
the missing key (or the message it was raised with) in the `String`.
Python's string truthiness (`if college:`) is false for both `None` and
`""`, modeled by `optTruthy`. -/

structure Plan where
  quarters : List (List PlannedCourse)
deriving DecidableEq

structure MajorPlans where
  year : ℕ
  department : String
  major_code : String
  plans : List (String × Plan)
deriving DecidableEq

/-- `parse.py` line 221. -/
def least_weird_colleges : List String := ["TH", "WA", "SN", "MU", "FI", "RE", "SI"]

/-- `parse.py` lines 228-258 `MajorPlans.curriculum`: with no college, fall
back through the fixed preference list; raise
`KeyError("Major has no college plans.")` when none of those seven is
present. With an explicit college, `self.plans[college]` raises
`KeyError(college)` when absent. -/
def MajorPlans.curriculum (mp : MajorPlans) (college : Option String) :
    Except String (List PlannedCourse) :=
  match college.orElse
      (fun _ => least_weird_colleges.find? (fun cc => (alookup mp.plans cc).isSome)) with
  | none => .error "Major has no college plans."
  | some c =>
    match alookup mp.plans c with
    | some plan =>
      .ok (plan.quarters.flatten.filter
        (fun course => course.type == "DEPARTMENT" || course.overlaps_ge))
    | none => .error c

/-- Python string truthiness of the optional college argument. -/
def optTruthy : Option String → Bool
  | none => false
  | some s => !s.isEmpty

/-- The sort key of `sorted(quarter, key=lambda c: c.course_title.strip("^* "))`. -/
def titleKey (c : PlannedCourse) : String := ⟨stripChars ['^', '*', ' '] c.course_title.data⟩

/-- Stable ascending insertion by `titleKey` (Python `sorted` is a stable
ascending sort; folding from the left inserts each course after every
already-placed course whose key is not larger). -/
def insertSorted (c : PlannedCourse) : List PlannedCourse → List PlannedCourse
  | [] => [c]
  | d :: rest => if titleKey c < titleKey d then c :: d :: rest else d :: insertSorted c rest

def sortQuarter (l : List PlannedCourse) : List PlannedCourse :=
  l.foldl (fun acc c => insertSorted c acc) []

structure MajorOutput where
  plans : MajorPlans
  course_ids : List (CourseCode × ℕ)
  curriculum : List PlannedCourse
  start_id : ℕ

/-- `output.py` lines 366-384 `populate_course_ids`. -/
def populate_course_ids : List PlannedCourse → List (CourseCode × ℕ) → ℕ →
    List (CourseCode × ℕ) × ℕ
  | [], m, s => (m, s)
  | c :: rest, m, s =>
    match parse_course_name c.course_title with
    | some (subject, number, has_lab) =>
      let p1 : List (CourseCode × ℕ) × ℕ :=
        if (alookup m (subject, number)).isSome then (m, s)
        else (m ++ [((subject, number), s)], s + 1)
      let p2 : List (CourseCode × ℕ) × ℕ :=
        match has_lab with
        | some lab =>
          if (alookup p1.1 (subject, number ++ ⟨[lab]⟩)).isSome then p1
          else (p1.1 ++ [((subject, number ++ ⟨[lab]⟩), p1.2)], p1.2 + 1)
        | none => p1
      populate_course_ids rest p2.1 p2.2
    | none => populate_course_ids rest m s

/-- `output.py` lines 359-364 `MajorOutput.__init__` (default
`start_id = 1` at every constructor call site in the source). -/
def MajorOutput.make (plans : MajorPlans) (start_id : ℕ) : Except String MajorOutput :=
  match plans.curriculum none with
  | .error e => .error e
  | .ok curr =>
    .ok ⟨plans, (populate_course_ids curr [] start_id).1, curr,
      (populate_course_ids curr [] start_id).2⟩

/-- `output.py` lines 386-450 `get_courses`. The college path enumerates
the 16 quarter slots, sorts each quarter by stripped title, marks
department/GE-overlap courses as major courses and maps slot `i` to term
`i - (i + 1) // 4`; the curriculum path uses the precomputed course list,
all major, term 0. The course-ID table is passed as a value (the
`{**self.course_ids}` clone of line 447), so the pass cannot mutate the
`MajorOutput`'s own table. -/
def MajorOutput.get_courses (mo : MajorOutput) (college : Option String) :
    Except String OutputCourses :=
  if optTruthy college then
    match college with
    | some c =>
      match alookup mo.plans.plans c with
      | none => .error c
      | some plan =>
        .ok (OutputCourses.init
          ((plan.quarters.enum.flatMap (fun p =>
            (sortQuarter p.2).map (fun course =>
              InputCourse.mk course
                (course.type == "DEPARTMENT" || course.overlaps_ge)
                (p.1 - (p.1 + 1) / 4)))).flatMap processInput)
          mo.start_id mo.course_ids true mo.plans.year)
    | none => .error "unreachable"
  else
    .ok (OutputCourses.init
      ((mo.curriculum.map (fun c => InputCourse.mk c true 0)).flatMap processInput)
      mo.start_id mo.course_ids false mo.plans.year)

/-! ## `output_json.py` records and `MajorOutput.output_json` -/

structure Requisite where
  source_id : ℕ
  target_id : ℕ
  type : String
deriving DecidableEq

structure Item where
  name : String
  id : ℕ
  credits : ℚ
  curriculum_requisites : List Requisite
deriving DecidableEq

structure Term where
  id : ℕ
  curriculum_items : List Item
deriving DecidableEq

structure Curriculum where
  curriculum_terms : List Term
deriving DecidableEq

def modifyAt {α : Type} : List α → ℕ → (α → α) → List α
  | [], _, _ => []
  | x :: rest, 0, f => f x :: rest
  | x :: rest, i + 1, f => x :: modifyAt rest i f

/-- The `Item` built for one course by `output_json`
(`output.py` lines 530-548): every requisite edge of a course targets the
course's own ID. -/
def mkItem (o : OutputCourse) : Item :=
  ⟨o.course_title, o.course_id, o.units,
   o.prereq_ids.map (fun p => ⟨p, o.course_id, "prereq"⟩) ++
     o.coreq_ids.map (fun q => ⟨q, o.course_id, "coreq"⟩)⟩

/-- `output.py` lines 504-549 `output_json`: 12 term objects for a degree
plan, 1 for a curriculum, courses appended to `curriculum_terms[term]` in
enumeration order (major section first). -/
def MajorOutput.output_json (reqsTable : ℕ → CourseCode → List (List Prerequisite))
    (mo : MajorOutput) (college : Option String) : Except String Curriculum :=
  match mo.get_courses college with
  | .error e => .error e
  | .ok oc =>
    .ok ⟨(oc.render reqsTable).foldl
      (fun ts o => modifyAt ts o.term (fun t => ⟨t.id, t.curriculum_items ++ [mkItem o]⟩))
      ((List.range (if optTruthy college then 12 else 1)).map (fun i => Term.mk (i + 1) []))⟩

/-! ## CSV rows (`output.py` 300-343 and 452-563)

`rows_to_csv` (quoting and column truncation) is pure serialization of the
row lists below and is not needed by any claim; `output`/`output_plan` are
embedded down to the level of rows of fields. `major_codes()` and
`college_names` are external data (the latter's module is not part of the
sources), passed in as parameters; `f"{units:g}"` float formatting is
abstracted as `unitsFmt`. -/

def INSTITUTION : String := "University of California, San Diego"

def SYSTEM_TYPE : String := "Quarter"

def HEADER : List String :=
  ["Course ID", "Course Name", "Prefix", "Number", "Prerequisites",
   "Corequisites", "Strict-Corequisites", "Credit Hours", "Institution",
   "Canonical Name", "Term"]

structure MajorInfo where
  isis_code : String
  name : String
  department : String
  cip_code : String
  award_types : List String

/-- One course row of `output_plan` (`output.py` lines 490-502); the last
field is the "Term" column, `str(term + 1)`. -/
def courseRow (unitsFmt : ℚ → String) (o : OutputCourse) : List String :=
  [toString o.course_id, o.course_title, o.code.1, o.code.2,
   String.intercalate ";" (o.prereq_ids.map toString),
   String.intercalate ";" (o.coreq_ids.map toString),
   "", unitsFmt o.units, "", "", toString (o.term + 1)]

/-- `output.py` lines 452-502 `output_plan`, producing rows of fields. -/
def MajorOutput.output_plan (mi : MajorInfo) (collegeNames : String → String)
    (unitsFmt : ℚ → String) (reqsTable : ℕ → CourseCode → List (List Prerequisite))
    (mo : MajorOutput) (college : Option String) :
    Except String (List (List String)) :=
  match mo.get_courses college with
  | .error e => .error e
  | .ok oc =>
    let headers :=
      [["Curriculum", mi.name]] ++
      (if optTruthy college then
        [["Degree Plan", mi.name ++ "/ " ++ collegeNames (college.getD "")]]
       else []) ++
      [["Institution", INSTITUTION],
       ["Degree Type", mi.award_types.getLastD ""],
       ["System Type", SYSTEM_TYPE],
       ["CIP", mi.cip_code]]
    let env := oc.env reqsTable
    let first := runList env (some true) oc.state0 oc.processed_courses
    if optTruthy college then
      .ok (headers ++ [["Courses"], HEADER] ++ first.2.map (courseRow unitsFmt) ++
        [["Additional Courses"], HEADER] ++
        (runList env (some false) first.1 oc.processed_courses).2.map (courseRow unitsFmt))
    else
      .ok (headers ++ [["Courses"], HEADER] ++ first.2.map (courseRow unitsFmt))

/-- `output.py` lines 551-563 `output`: an explicit college absent from
the plans table raises `KeyError(f"No degree plan available for
{college}.")` before any rendering. -/
def MajorOutput.output (mi : MajorInfo) (collegeNames : String → String)
    (unitsFmt : ℚ → String) (reqsTable : ℕ → CourseCode → List (List Prerequisite))
    (mo : MajorOutput) (college : Option String) :
    Except String (List (List String)) :=
  match college with
  | some c =>
    if (alookup mo.plans.plans c).isNone then
      .error ("No degree plan available for " ++ c ++ ".")
    else mo.output_plan mi collegeNames unitsFmt reqsTable (some c)
  | none => mo.output_plan mi collegeNames unitsFmt reqsTable none

/-! ## `MajorOutput.from_json` (`output.py` 565-583) -/

/-- Python dict assignment `d[k] = v`: overwrite in place or append. -/
def setCode : List (CourseCode × ℕ) → CourseCode → ℕ → List (CourseCode × ℕ)
  | [], c, v => [(c, v)]
  | (k, x) :: rest, c, v =>
    if k = c then (c, v) :: rest else (k, x) :: setCode rest c v

/-- The loop of `from_json`: re-parse each rendered course name, map the
`(subject, number)` pair to the rendered ID (later courses overwrite
earlier ones), and push `start_id` past every ID. -/
def fromJsonFold : List (String × ℕ) → List (CourseCode × ℕ) → ℕ →
    List (CourseCode × ℕ) × ℕ
  | [], m, s => (m, s)
  | (nm, cid) :: rest, m, s =>
    fromJsonFold rest
      (match parse_course_name nm with
       | some (subject, number, _) => setCode m (subject, number) cid
       | none => m)
      (if s < cid + 1 then cid + 1 else s)

/-- `output.py` lines 565-583 `from_json`: build a fresh `MajorOutput`,
then replace its ID table and `start_id` with ones seeded from the
rendered document's course list (`(name, id)` pairs). -/
def MajorOutput.from_json (plans : MajorPlans) (courses : List (String × ℕ)) :
    Except String MajorOutput :=
  match MajorOutput.make plans 1 with
  | .error e => .error e
  | .ok mo =>
    .ok ⟨mo.plans, (fromJsonFold courses [] 1).1, mo.curriculum,
      (fromJsonFold courses [] 1).2⟩

/-- The flattened course list of a rendered curriculum document, as
`from_json` consumes it (`json["courses"]`, name and ID per course). -/
def curriculumCourses (c : Curriculum) : List (String × ℕ) :=
  c.curriculum_terms.flatMap (fun t => t.curriculum_items.map (fun it => (it.name, it.id)))

/-! ## Requisite-resolution analysis (claim C1) -/

/-- A successful title-bounded `find_prereq` returns the table ID of a
course located strictly before the first occurrence of the boundary
title. -/
theorem find_prereq_title_spec {cids : List (CourseCode × ℕ)}
    {alts : List Prerequisite} {t : String} {i : ℕ} {conc : Bool} :
    ∀ {l : List ProcessedCourse},
      find_prereq cids alts (ReqBoundary.title t) l = some (i, conc) →
      ∃ m, ∃ hm : m < l.length,
        i = (alookup cids (l.get ⟨m, hm⟩).code).getD 0 ∧
        (findAlt alts (l.get ⟨m, hm⟩).code) = some conc ∧
        ∀ k (hk : k ≤ m), (l.get ⟨k, lt_of_le_of_lt hk hm⟩).course_title ≠ t := by
  intro l
  induction l with
  | nil => intro h; cases h
  | cons c rest ih =>
    intro h
    simp only [find_prereq] at h
    split at h
    · cases h
    · rename_i hneq
      split at h
      · rename_i conc2 hf
        simp only [Option.some.injEq, Prod.mk.injEq] at h
        obtain ⟨hi, hconc⟩ := h
        subst hconc
        exact ⟨0, Nat.succ_pos _, hi.symm, hf, fun k hk => by
          cases Nat.le_zero.1 hk
          exact hneq⟩
      · obtain ⟨m, hm, hi, hfa, hbefore⟩ := ih h
        refine ⟨m + 1, Nat.succ_lt_succ hm, hi, hfa, ?_⟩
        intro k hk
        cases k with
        | zero => exact hneq
        | succ k => exact hbefore k (Nat.le_of_succ_le_succ hk)

/-- A successful term-bounded `find_prereq` returns the table ID of a
course with a strictly lower term index. -/
theorem find_prereq_term_spec {cids : List (CourseCode × ℕ)}
    {alts : List Prerequisite} {t : ℕ} {i : ℕ} {conc : Bool} :
    ∀ {l : List ProcessedCourse},
      find_prereq cids alts (ReqBoundary.term t) l = some (i, conc) →
      ∃ m, ∃ hm : m < l.length,
        i = (alookup cids (l.get ⟨m, hm⟩).code).getD 0 ∧
        (findAlt alts (l.get ⟨m, hm⟩).code) = some conc ∧
        (l.get ⟨m, hm⟩).term < t := by
  intro l
  induction l with
  | nil => intro h; cases h
  | cons c rest ih =>
    intro h
    simp only [find_prereq] at h
    split at h
    · cases h
    · rename_i hlt
      split at h
      · rename_i conc2 hf
        simp only [Option.some.injEq, Prod.mk.injEq] at h
        obtain ⟨hi, hconc⟩ := h
        subst hconc
        refine ⟨0, Nat.succ_pos _, hi.symm, hf, ?_⟩
        show c.term < t
        omega
      · obtain ⟨m, hm, hi, hfa, hterm⟩ := ih h
        exact ⟨m + 1, Nat.succ_lt_succ hm, hi, hfa, hterm⟩

/-- Sources accumulated by folding `addReq` all come from a successful
`find_prereq` of one of the folded elements (or were in the accumulator
already). -/
theorem foldl_addReq_mem {α : Type} (f : α → Option (ℕ × Bool)) :
    ∀ (l : List α) (acc : List ℕ × List ℕ) {i : ℕ},
      (i ∈ (l.foldl (fun a x => addReq a (f x)) acc).1 ∨
       i ∈ (l.foldl (fun a x => addReq a (f x)) acc).2) →
      (i ∈ acc.1 ∨ i ∈ acc.2) ∨ ∃ x ∈ l, ∃ conc, f x = some (i, conc) := by
  intro l
  induction l with
  | nil => intro acc i h; exact Or.inl h
  | cons x rest ih =>
    intro acc i h
    simp only [List.foldl_cons] at h
    rcases ih (addReq acc (f x)) h with hacc | ⟨y, hy, conc, hfy⟩
    · cases hfx : f x with
      | none =>
        rw [hfx] at hacc
        simp only [addReq] at hacc
        exact Or.inl hacc
      | some p =>
        obtain ⟨v, cc⟩ := p
        rw [hfx] at hacc
        simp only [addReq] at hacc
        by_cases hcc : cc = true
        · subst hcc
          simp only [if_pos rfl] at hacc
          rcases hacc with h1 | h2
          · exact Or.inl (Or.inl h1)
          · rcases List.mem_append.1 h2 with h2 | h2
            · exact Or.inl (Or.inr h2)
            · rcases List.mem_singleton.1 h2 with rfl
              exact Or.inr ⟨x, by simp, true, hfx⟩
        · rw [if_neg hcc] at hacc
          rcases hacc with h1 | h2
          · rcases List.mem_append.1 h1 with h1 | h1
            · exact Or.inl (Or.inl h1)
            · rcases List.mem_singleton.1 h1 with rfl
              exact Or.inr ⟨x, by simp, cc, hfx⟩
          · exact Or.inl (Or.inr h2)
    · exact Or.inr ⟨y, by simp [hy], conc, hfy⟩

/-- Every source ID of `courseReqs` comes from a successful `find_prereq`:
with the course's own title as boundary for the hard-coded non-course
titles, and with the mode-dependent boundary for table-derived groups. -/
theorem courseReqs_source {env : RenderEnv} {c : ProcessedCourse} {i : ℕ}
    (h : i ∈ (courseReqs env c).1 ∨ i ∈ (courseReqs env c).2) :
    (∃ alts conc, (alookup non_course_prereqs c.course_title).isSome ∧
        find_prereq env.course_ids alts (ReqBoundary.title c.course_title)
          env.processed_all = some (i, conc)) ∨
    (∃ alts conc, alookup non_course_prereqs c.course_title = none ∧
        find_prereq env.course_ids alts
          (if env.degree_plan then ReqBoundary.term c.term
           else ReqBoundary.title c.course_title)
          env.processed_all = some (i, conc)) := by
  cases hn : alookup non_course_prereqs c.course_title with
  | some codes =>
    simp only [courseReqs, hn] at h
    rcases foldl_addReq_mem _ codes ([], []) h with hacc | ⟨x, -, conc, hfx⟩
    · simp at hacc
    · exact Or.inl ⟨[⟨x, false⟩], conc, rfl, hfx⟩
  | none =>
    simp only [courseReqs, hn] at h
    split at h
    · simp at h
    · rcases foldl_addReq_mem _ (env.reqsTable c.term c.code) ([], []) h with
        hacc | ⟨alts, -, conc, hfx⟩
      · simp at hacc
      · exact Or.inr ⟨alts, conc, rfl, hfx⟩

/-- Every course yielded by `list_courses` comes from a processed course of
the scanned list, carrying that course's term, code and requisite lists. -/
theorem runList_mem_shape (env : RenderEnv) (show? : Option Bool) :
    ∀ (l : List ProcessedCourse) (st : ListState) (o : OutputCourse),
      o ∈ (runList env show? st l).2 →
      ∃ c, c ∈ l ∧ o.prereq_ids = (courseReqs env c).1 ∧
        o.coreq_ids = (courseReqs env c).2 ∧ o.term = c.term ∧ o.code = c.code := by
  intro l
  induction l with
  | nil => intro st o h; simp [runList] at h
  | cons c rest ih =>
    intro st o h
    simp only [runList] at h
    split at h
    · rcases List.mem_cons.1 h with rfl | h2
      · exact ⟨c, List.mem_cons_self c rest, rfl, rfl, rfl, rfl⟩
      · obtain ⟨d, hd, hrest⟩ := ih _ _ h2
        exact ⟨d, List.mem_cons_of_mem c hd, hrest⟩
    · obtain ⟨d, hd, hrest⟩ := ih _ _ h
      exact ⟨d, List.mem_cons_of_mem c hd, hrest⟩

/-- Claim C1 (counterexample to the original wording): in a degree-plan
render, the hard-coded non-course prerequisite of
"SOCI- UD METHODOLOGY" is resolved with the course title as boundary, not
the term index, so its source course may sit in the very same term: here
both courses occupy term 0 and the second still gets the first as a
prerequisite — the source is not at a strictly lower term index. -/
theorem same_term_prereq_refuted :
    ((OutputCourses.init
        [⟨"SOCI 60", ("SOCI", "60"), 4, true, 0⟩,
         ⟨"SOCI- UD METHODOLOGY", ("", ""), 4, true, 0⟩] 1 [] true 2021).render
        (fun _ _ => [])).map (fun o => (o.course_id, o.term, o.prereq_ids))
      = [(1, 0, []), (2, 0, [1])] := by
  decide

/-- Claim C1 (amended): every requisite edge built for `output_json`
targets the course's own assigned ID, and every prereq/coreq source ID is
the shared-table ID of a processed course respecting the mode's boundary:
a strictly lower term index in degree-plan mode for table-derived
prerequisites, and a position strictly before the first history entry
bearing the referencing course's title in curriculum mode — but for the
hard-coded non-course prerequisites the title boundary is used even in
degree-plan mode, so those sources may share the course's term. -/
theorem requisite_targets_and_bounded_sources
    (env : RenderEnv) (show? : Option Bool) (st : ListState)
    (l : List ProcessedCourse) (o : OutputCourse)
    (ho : o ∈ (runList env show? st l).2) :
    (∀ r ∈ (mkItem o).curriculum_requisites, r.target_id = o.course_id) ∧
    ∃ c, c ∈ l ∧ o.term = c.term ∧
      ∀ i : ℕ, i ∈ o.prereq_ids ∨ i ∈ o.coreq_ids →
        ∃ m, ∃ hm : m < env.processed_all.length,
          i = (alookup env.course_ids
                 (env.processed_all.get ⟨m, hm⟩).code).getD 0 ∧
          ((env.degree_plan = true ∧
              alookup non_course_prereqs c.course_title = none ∧
              (env.processed_all.get ⟨m, hm⟩).term < c.term) ∨
           ((env.degree_plan = false ∨
               (alookup non_course_prereqs c.course_title).isSome) ∧
            ∀ k (hk : k ≤ m),
              (env.processed_all.get ⟨k, lt_of_le_of_lt hk hm⟩).course_title
                ≠ c.course_title)) := by
  refine ⟨?_, ?_⟩
  · intro r hr
    simp only [mkItem] at hr
    rcases List.mem_append.1 hr with h1 | h1 <;>
      obtain ⟨p, -, rfl⟩ := List.mem_map.1 h1 <;> rfl
  · obtain ⟨c, hc, hpre, hco, hterm, -⟩ := runList_mem_shape env show? l st o ho
    refine ⟨c, hc, hterm, ?_⟩
    intro i hi
    have hi2 : i ∈ (courseReqs env c).1 ∨ i ∈ (courseReqs env c).2 := by
      rcases hi with hi | hi
      · exact Or.inl (hpre ▸ hi)
      · exact Or.inr (hco ▸ hi)
    rcases courseReqs_source hi2 with
      ⟨alts, conc, hsome, hfp⟩ | ⟨alts, conc, hnone, hfp⟩
    · obtain ⟨m, hm, hid, -, hbefore⟩ := find_prereq_title_spec hfp
      exact ⟨m, hm, hid, Or.inr ⟨Or.inr hsome, hbefore⟩⟩
    · cases hdp : env.degree_plan with
      | true =>
        rw [hdp, if_pos rfl] at hfp
        obtain ⟨m, hm, hid, -, hlt⟩ := find_prereq_term_spec hfp
        exact ⟨m, hm, hid, Or.inl ⟨rfl, hnone, hlt⟩⟩
      | false =>
        rw [hdp, if_neg Bool.false_ne_true] at hfp
        obtain ⟨m, hm, hid, -, hbefore⟩ := find_prereq_title_spec hfp
        exact ⟨m, hm, hid, Or.inr ⟨Or.inl rfl, hbefore⟩⟩

theorem requisite_targets_and_bounded_sources_witness :
    (∀ r ∈ (mkItem ⟨1, "CSE 11", ("CSE", "11"), [], [], 4, 0⟩).curriculum_requisites,
        r.target_id = 1) ∧
    ∃ c, c ∈ [(⟨"CSE 11", ("CSE", "11"), 4, true, 0⟩ : ProcessedCourse)] ∧
      (0 : ℕ) = c.term ∧
      ∀ i : ℕ, i ∈ ([] : List ℕ) ∨ i ∈ ([] : List ℕ) →
        ∃ m, ∃ hm : m <
            [(⟨"CSE 11", ("CSE", "11"), 4, true, 0⟩ : ProcessedCourse)].length,
          i = (alookup [((("CSE", "11") : CourseCode), 1)]
                 ([(⟨"CSE 11", ("CSE", "11"), 4, true, 0⟩ : ProcessedCourse)].get
                    ⟨m, hm⟩).code).getD 0 ∧
          ((false = true ∧
              alookup non_course_prereqs c.course_title = none ∧
              ([(⟨"CSE 11", ("CSE", "11"), 4, true, 0⟩ : ProcessedCourse)].get
                 ⟨m, hm⟩).term < c.term) ∨
           ((false = false ∨
               (alookup non_course_prereqs c.course_title).isSome) ∧
            ∀ k (hk : k ≤ m),
              ([(⟨"CSE 11", ("CSE", "11"), 4, true, 0⟩ : ProcessedCourse)].get
                 ⟨k, lt_of_le_of_lt hk hm⟩).course_title ≠ c.course_title)) :=
  requisite_targets_and_bounded_sources
    ⟨[(("CSE", "11"), 1)], fun _ _ => [], false,
      [⟨"CSE 11", ("CSE", "11"), 4, true, 0⟩]⟩ none ⟨2, [("CSE", "11")], []⟩
    [⟨"CSE 11", ("CSE", "11"), 4, true, 0⟩]
    ⟨1, "CSE 11", ("CSE", "11"), [], [], 4, 0⟩ (by decide)

/-! ## Round-trip through `from_json` (claim C3) -/

/-- Claim C3 (counterexample to the original wording): the title
"DEI /GE: CSE 11" parses to the code `("CSE", "11")` but cleans to the
bare title "DEI", which `from_json` cannot re-parse. The original
curriculum render gives the code the ID 1 and its document lists the
course as `("DEI", 1)`; re-seeding a `MajorOutput` from that document
drops the binding, so the re-render hands the same code the fresh ID 2 —
the round trip does not reproduce the ID. -/
theorem from_json_roundtrip_refuted :
    ((MajorOutput.make
        ⟨2021, "CSE", "CS26",
         [("TH", ⟨[[⟨"DEI /GE: CSE 11", 4, "DEPARTMENT", false⟩]]⟩)]⟩ 1).toOption.map
      (fun mo1 =>
        ((mo1.output_json (fun _ _ => []) none).toOption.map curriculumCourses,
         (mo1.get_courses none).toOption.map (fun oc =>
           (oc.render (fun _ _ => [])).map (fun o => (o.code, o.course_id))))))
      = some (some [("DEI", 1)], some [(("CSE", "11"), 1)]) ∧
    ((MajorOutput.from_json
        ⟨2021, "CSE", "CS26",
         [("TH", ⟨[[⟨"DEI /GE: CSE 11", 4, "DEPARTMENT", false⟩]]⟩)]⟩
        [("DEI", 1)]).toOption.map (fun mo2 =>
      (mo2.get_courses none).toOption.map (fun oc =>
        (oc.render (fun _ _ => [])).map (fun o => (o.code, o.course_id)))))
      = some (some [(("CSE", "11"), 2)]) := by
  constructor <;> decide

theorem alookup_setCode_self (m : List (CourseCode × ℕ)) (c : CourseCode) (v : ℕ) :
    alookup (setCode m c v) c = some v := by
  induction m with
  | nil => simp [setCode, alookup]
  | cons p rest ih =>
    obtain ⟨k, x⟩ := p
    by_cases hk : k = c
    · simp [setCode, hk, alookup]
    · simp [setCode, hk, alookup, ih]

theorem alookup_setCode_other (m : List (CourseCode × ℕ)) {c x : CourseCode}
    (v : ℕ) (h : x ≠ c) :
    alookup (setCode m c v) x = alookup m x := by
  have h1 : ¬c = x := fun hc => h hc.symm
  induction m with
  | nil => simp [setCode, alookup, h1]
  | cons p rest ih =>
    obtain ⟨k, w⟩ := p
    simp only [setCode]
    by_cases hk : k = c
    · rw [if_pos hk]
      have h2 : ¬k = x := by rw [hk]; exact h1
      simp [alookup, h1, h2]
    · rw [if_neg hk]
      by_cases hx : k = x
      · simp [alookup, hx]
      · simp [alookup, hx, ih]

theorem fromJsonFold_append :
    ∀ (l1 l2 : List (String × ℕ)) (m : List (CourseCode × ℕ)) (s : ℕ),
      fromJsonFold (l1 ++ l2) m s =
        fromJsonFold l2 (fromJsonFold l1 m s).1 (fromJsonFold l1 m s).2 := by
  intro l1
  induction l1 with
  | nil => intro l2 m s; rfl
  | cons p rest ih =>
    intro l2 m s
    obtain ⟨nm, cid⟩ := p
    simp only [List.cons_append, fromJsonFold]
    exact ih l2 _ _

/-- Entries whose names never re-parse to the code `x` leave the binding of
`x` untouched. -/
theorem fromJsonFold_lookup_none {x : CourseCode} :
    ∀ (courses : List (String × ℕ)) (m : List (CourseCode × ℕ)) (s : ℕ),
      (∀ p ∈ courses, ∀ S N lb,
        parse_course_name p.1 = some (S, N, lb) → (S, N) ≠ x) →
      alookup (fromJsonFold courses m s).1 x = alookup m x := by
  intro courses
  induction courses with
  | nil => intro m s _; rfl
  | cons p rest ih =>
    intro m s hno
    obtain ⟨nm, cid⟩ := p
    simp only [fromJsonFold]
    cases hp : parse_course_name nm with
    | some trip =>
      obtain ⟨S, N, lb⟩ := trip
      rw [ih _ _ (fun q hq => hno q (List.mem_cons_of_mem _ hq))]
      show alookup (setCode m (S, N) cid) x = alookup m x
      exact alookup_setCode_other m cid
        (Ne.symm (hno (nm, cid) (List.mem_cons_self _ _) S N lb hp))
    | none =>
      exact ih _ _ (fun q hq => hno q (List.mem_cons_of_mem _ hq))

/-- After an entry whose name re-parses to `x`, with no later entry
re-parsing to `x`, the table binds `x` to that entry's ID. -/
theorem fromJsonFold_set {x : CourseCode} {nm : String} {v : ℕ} {lb : Option Char}
    (pre post : List (String × ℕ)) (m : List (CourseCode × ℕ)) (s : ℕ)
    (hnm : parse_course_name nm = some (x.1, x.2, lb))
    (hpost : ∀ p ∈ post, ∀ S N lb2,
      parse_course_name p.1 = some (S, N, lb2) → (S, N) ≠ x) :
    alookup (fromJsonFold (pre ++ (nm, v) :: post) m s).1 x = some v := by
  rw [fromJsonFold_append]
  simp only [fromJsonFold, hnm]
  rw [fromJsonFold_lookup_none post _ _ hpost]
  exact alookup_setCode_self _ _ _

theorem list_split_at {α : Type} (l : List α) (k : ℕ) (hk : k < l.length) :
    l = l.take k ++ l.get ⟨k, hk⟩ :: l.drop (k + 1) := by
  conv_lhs => rw [← List.take_append_drop k l, List.drop_eq_get_cons hk]

theorem mem_drop_index {α : Type} {l : List α} {k : ℕ} {o : α}
    (h : o ∈ l.drop (k + 1)) :
    ∃ j, ∃ hj : j < l.length, k < j ∧ l.get ⟨j, hj⟩ = o := by
  obtain ⟨⟨i, hi⟩, heq⟩ := List.mem_iff_get.1 h
  have hlen : (l.drop (k + 1)).length = l.length - (k + 1) := List.length_drop _ _
  have hj : k + 1 + i < l.length := by rw [hlen] at hi; omega
  refine ⟨k + 1 + i, hj, by omega, ?_⟩
  rw [← heq]
  exact List.get_drop l hj

theorem listAll_length (processed : List ProcessedCourse) (start year : ℕ)
    (cids0 : List (CourseCode × ℕ)) (dp : Bool)
    (reqsTable : ℕ → CourseCode → List (List Prerequisite)) :
    ((OutputCourses.init processed start cids0 dp year).listAll reqsTable).length
      = processed.length :=
  runList_none_length _ _ _

theorem listAll_code (processed : List ProcessedCourse) (start year : ℕ)
    (cids0 : List (CourseCode × ℕ)) (dp : Bool)
    (reqsTable : ℕ → CourseCode → List (List Prerequisite)) (k : ℕ)
    (hk : k < ((OutputCourses.init processed start cids0 dp year).listAll
        reqsTable).length)
    (hkp : k < processed.length) :
    (((OutputCourses.init processed start cids0 dp year).listAll reqsTable).get
        ⟨k, hk⟩).code = (processed.get ⟨k, hkp⟩).code :=
  runList_none_code _ processed _ k hk

/-- The first occurrence of a table code in a full enumeration receives the
table's ID for it. -/
theorem listAll_first_code_id (processed : List ProcessedCourse)
    (start year : ℕ) (cids0 : List (CourseCode × ℕ)) (dp : Bool)
    (reqsTable : ℕ → CourseCode → List (List Prerequisite))
    {v : ℕ} (k : ℕ) (hk : k < processed.length)
    (hv : alookup (assignIds processed start cids0).2
        (processed.get ⟨k, hk⟩).code = some v)
    (hfirst : ∀ i (hi : i < k),
      (processed.get ⟨i, lt_trans hi hk⟩).code ≠ (processed.get ⟨k, hk⟩).code)
    (hlen : k < ((OutputCourses.init processed start cids0 dp year).listAll
        reqsTable).length) :
    ((((OutputCourses.init processed start cids0 dp year).listAll reqsTable)).get
        ⟨k, hlen⟩).course_id = v := by
  have hx : (processed.get ⟨k, hk⟩).code ∈
      ((assignIds processed start cids0).2.map Prod.fst) :=
    List.mem_map.2 ⟨_, alookup_mem hv, rfl⟩
  exact runList_none_first_code_id _ processed _ hx hv k hk rfl hfirst

/-- Claim C3 (amended): the `from_json` round trip reproduces an output
course's ID when the rendered titles are faithful: if every rendered title
of a non-empty-code course re-parses to that course's own code, the titles
of empty-code courses stay unparseable, and no two distinct output courses
share a non-empty code, then re-rendering with the ID table re-seeded from
the rendered `(title, ID)` pairs assigns every non-empty-code course the
identical ID. The counterexample above shows the first hypothesis can
fail — title cleaning can destroy the code inside a title — and then the
ID is not reproduced. -/
theorem from_json_first_occurrence_ids
    (processed : List ProcessedCourse) (cids0 : List (CourseCode × ℕ))
    (start_id year : ℕ) (reqsTable : ℕ → CourseCode → List (List Prerequisite))
    (outs1 outs2 : List OutputCourse)
    (h1 : outs1 = (OutputCourses.init processed start_id cids0 false year).listAll
        reqsTable)
    (h2 : outs2 = (OutputCourses.init processed
        (fromJsonFold (outs1.map (fun o => (o.course_title, o.course_id))) [] 1).2
        (fromJsonFold (outs1.map (fun o => (o.course_title, o.course_id))) [] 1).1
        false year).listAll reqsTable)
    (hparse : ∀ o ∈ outs1,
      (o.code = ("", "") → parse_course_name o.course_title = none) ∧
      (o.code ≠ ("", "") →
        ∃ lb, parse_course_name o.course_title = some (o.code.1, o.code.2, lb)))
    (hdistinct : ∀ i j (hi : i < outs1.length) (hj : j < outs1.length), i ≠ j →
      (outs1.get ⟨i, hi⟩).code ≠ ("", "") →
      (outs1.get ⟨i, hi⟩).code ≠ (outs1.get ⟨j, hj⟩).code) :
    ∀ k (hk1 : k < outs1.length) (hk2 : k < outs2.length),
      (outs1.get ⟨k, hk1⟩).code ≠ ("", "") →
      (outs2.get ⟨k, hk2⟩).course_id = (outs1.get ⟨k, hk1⟩).course_id := by
  subst h2
  intro k hk1 hk2 hne
  have hlen1 : outs1.length = processed.length := by
    rw [h1]; exact listAll_length processed start_id year cids0 false reqsTable
  have hkp : k < processed.length := by omega
  have hcode : ∀ j (hj : j < outs1.length) (hjp : j < processed.length),
      (outs1.get ⟨j, hj⟩).code = (processed.get ⟨j, hjp⟩).code := by
    rw [h1]
    intro j hj hjp
    exact listAll_code processed start_id year cids0 false reqsTable j hj hjp
  have hcodek := hcode k hk1 hkp
  have hfirst : ∀ i (hi : i < k),
      (processed.get ⟨i, lt_trans hi hkp⟩).code ≠ (processed.get ⟨k, hkp⟩).code := by
    intro i hi hcontra
    have hi1 : i < outs1.length := by omega
    exact hdistinct k i hk1 hi1 (by omega) hne
      (hcodek.trans (hcontra.symm.trans (hcode i hi1 (lt_trans hi hkp)).symm))
  obtain ⟨lb, hlb⟩ := (hparse _ (List.get_mem outs1 k hk1)).2 hne
  rw [hcodek] at hlb
  have hpost : ∀ p ∈ (outs1.drop (k + 1)).map (fun o => (o.course_title, o.course_id)),
      ∀ S N lb2, parse_course_name p.1 = some (S, N, lb2) →
        (S, N) ≠ (processed.get ⟨k, hkp⟩).code := by
    intro p hp S N lb2 hpp heq
    obtain ⟨o, ho, rfl⟩ := List.mem_map.1 hp
    obtain ⟨j, hj, hkj, rfl⟩ := mem_drop_index ho
    by_cases hempty : (outs1.get ⟨j, hj⟩).code = ("", "")
    · have hnone := (hparse _ (List.get_mem outs1 j hj)).1 hempty
      rw [hnone] at hpp
      cases hpp
    · obtain ⟨lb3, hlb3⟩ := (hparse _ (List.get_mem outs1 j hj)).2 hempty
      rw [hlb3] at hpp
      simp only [Option.some.injEq, Prod.mk.injEq] at hpp
      obtain ⟨hS, hN, -⟩ := hpp
      have hcodeeq : (outs1.get ⟨j, hj⟩).code = (S, N) := by
        rw [← hS, ← hN]
      exact hdistinct j k hj hk1 (by omega) hempty
        (hcodeeq.trans (heq.trans hcodek.symm))
  have hlookup2 : alookup (fromJsonFold
        (outs1.map (fun o => (o.course_title, o.course_id))) [] 1).1
        (processed.get ⟨k, hkp⟩).code
      = some ((outs1.get ⟨k, hk1⟩).course_id) := by
    conv_lhs => rw [list_split_at outs1 k hk1, List.map_append, List.map_cons]
    exact @fromJsonFold_set ((processed.get ⟨k, hkp⟩).code) _ _ _ _ _ _ _ hlb hpost
  exact listAll_first_code_id processed
    (fromJsonFold (outs1.map (fun o => (o.course_title, o.course_id))) [] 1).2 year
    (fromJsonFold (outs1.map (fun o => (o.course_title, o.course_id))) [] 1).1 false
    reqsTable k hkp (assignIds_keeps processed _ _ hlookup2) hfirst hk2

theorem from_json_first_occurrence_ids_witness :
    (([⟨2, "CSE 11", ("CSE", "11"), [], [], 4, 0⟩] : List OutputCourse).get
        ⟨0, by decide⟩).course_id
      = (([⟨2, "CSE 11", ("CSE", "11"), [], [], 4, 0⟩] : List OutputCourse).get
        ⟨0, by decide⟩).course_id :=
  from_json_first_occurrence_ids
    [⟨"CSE 11", ("CSE", "11"), 4, true, 0⟩] [] 2 2021 (fun _ _ => [])
    [⟨2, "CSE 11", ("CSE", "11"), [], [], 4, 0⟩]
    [⟨2, "CSE 11", ("CSE", "11"), [], [], 4, 0⟩]
    (by decide) (by decide)
    (by
      intro o ho
      rw [List.mem_singleton] at ho
      subst ho
      exact ⟨fun hc => absurd hc (by decide), fun _ => ⟨none, by decide⟩⟩)
    (by
      intro i j hi hj hij hni
      simp only [List.length_singleton] at hi hj
      exact absurd (by omega) hij)
    0 (by decide) (by decide) (by decide)

/-! ## Curriculum fallback and college errors (claim C6) -/

/-- Claim C6 (counterexample to the original wording): the curriculum
fallback only tries the seven fixed colleges of `least_weird_colleges`. A
plans table that is non-empty but keyed by an unknown college still raises
"Major has no college plans.". -/
theorem curriculum_fallback_refuted :
    ([("ZZ", (⟨[[⟨"CSE 11", 4, "DEPARTMENT", false⟩]]⟩ : Plan))]
        ≠ ([] : List (String × Plan))) ∧
    MajorPlans.curriculum
        ⟨2021, "CSE", "CS26", [("ZZ", ⟨[[⟨"CSE 11", 4, "DEPARTMENT", false⟩]]⟩)]⟩
        none
      = .error "Major has no college plans." :=
  ⟨by decide, rfl⟩

/-- Claim C6 (amended): the curriculum pass succeeds whenever one of the
seven preference-order colleges is present (not merely whenever the table
is non-empty); requesting an absent college raises an error naming that
college, and the CSV `output` wrapper raises
"No degree plan available for {college}.". -/
theorem curriculum_fallback_and_errors (mp : MajorPlans) :
    ((∃ c ∈ least_weird_colleges, (alookup mp.plans c).isSome) →
      ∃ courses, mp.curriculum none = .ok courses) ∧
    (∀ c, alookup mp.plans c = none → mp.curriculum (some c) = .error c) ∧
    (∀ (mo : MajorOutput) (mi : MajorInfo) (collegeNames : String → String)
       (unitsFmt : ℚ → String)
       (reqsTable : ℕ → CourseCode → List (List Prerequisite)) (c : String),
      alookup mo.plans.plans c = none →
      mo.output mi collegeNames unitsFmt reqsTable (some c)
        = .error ("No degree plan available for " ++ c ++ ".")) := by
  refine ⟨?_, ?_, ?_⟩
  · intro hex
    obtain ⟨c2, hfind⟩ := Option.isSome_iff_exists.1 (List.find?_isSome.2 hex)
    have hp := List.find?_some hfind
    obtain ⟨plan, hplan⟩ := Option.isSome_iff_exists.1 hp
    refine ⟨plan.quarters.flatten.filter
        (fun course => course.type == "DEPARTMENT" || course.overlaps_ge), ?_⟩
    have h0 : (none : Option String).orElse
        (fun _ => least_weird_colleges.find?
          (fun cc => (alookup mp.plans cc).isSome)) = some c2 := hfind
    simp only [MajorPlans.curriculum, h0, hplan]
  · intro c hc
    have h0 : (some c).orElse
        (fun _ => least_weird_colleges.find?
          (fun cc => (alookup mp.plans cc).isSome)) = some c := rfl
    simp only [MajorPlans.curriculum, h0, hc]
  · intro mo mi collegeNames unitsFmt reqsTable c hc
    simp only [MajorOutput.output, hc, Option.isNone_none, if_pos]

theorem curriculum_fallback_and_errors_witness :
    (∃ courses, MajorPlans.curriculum
        ⟨2021, "CSE", "CS26", [("TH", ⟨[[⟨"CSE 11", 4, "DEPARTMENT", false⟩]]⟩)]⟩
        none = .ok courses) ∧
    (MajorPlans.curriculum
        ⟨2021, "CSE", "CS26", [("TH", ⟨[[⟨"CSE 11", 4, "DEPARTMENT", false⟩]]⟩)]⟩
        (some "ZZ") = .error "ZZ") ∧
    (MajorOutput.output ⟨"CS26", "Computer Science", "CSE", "11.0701", ["BS"]⟩
        (fun c => c) (fun _ => "4") (fun _ _ => [])
        ⟨⟨2021, "CSE", "CS26", [("TH", ⟨[[⟨"CSE 11", 4, "DEPARTMENT", false⟩]]⟩)]⟩,
         [], [], 1⟩
        (some "ZZ") = .error ("No degree plan available for " ++ "ZZ" ++ ".")) :=
  ⟨(curriculum_fallback_and_errors _).1 ⟨"TH", by decide, by decide⟩,
   (curriculum_fallback_and_errors _).2.1 "ZZ" (by decide),
   (curriculum_fallback_and_errors
       ⟨2021, "CSE", "CS26", [("TH", ⟨[[⟨"CSE 11", 4, "DEPARTMENT", false⟩]]⟩)]⟩).2.2
     ⟨⟨2021, "CSE", "CS26", [("TH", ⟨[[⟨"CSE 11", 4, "DEPARTMENT", false⟩]]⟩)]⟩,
      [], [], 1⟩
     ⟨"CS26", "Computer Science", "CSE", "11.0701", ["BS"]⟩
     (fun c => c) (fun _ => "4") (fun _ _ => []) "ZZ" (by decide)⟩

/-! ## Term-index range safety (claim C10) -/

theorem processInput_term (ic : InputCourse) :
    ∀ pc ∈ processInput ic, pc.term = ic.term := by
  intro pc hpc
  simp only [processInput] at hpc
  split at hpc
  · rcases List.mem_singleton.1 hpc with rfl
    rfl
  · split at hpc
    · rcases List.mem_cons.1 hpc with rfl | hpc2
      · rfl
      · rcases List.mem_singleton.1 hpc2 with rfl
        rfl
    · rcases List.mem_singleton.1 hpc with rfl
      rfl
    · rcases List.mem_singleton.1 hpc with rfl
      rfl

theorem modifyAt_length {α : Type} : ∀ (l : List α) (i : ℕ) (f : α → α),
    (modifyAt l i f).length = l.length := by
  intro l
  induction l with
  | nil => intro i f; rfl
  | cons x rest ih =>
    intro i f
    cases i with
    | zero => rfl
    | succ i => simp [modifyAt, ih]

theorem foldl_modifyTerm_length (outs : List OutputCourse) :
    ∀ (ts : List Term),
      (outs.foldl (fun ts o =>
        modifyAt ts o.term
          (fun t => ⟨t.id, t.curriculum_items ++ [mkItem o]⟩)) ts).length
        = ts.length := by
  induction outs with
  | nil => intro ts; rfl
  | cons o rest ih =>
    intro ts
    simp only [List.foldl_cons]
    rw [ih, modifyAt_length]

/-- Claim C10: every quarter slot `i` of a (≤ 16 quarter) degree plan maps
to a term index `i - (i + 1) / 4` below 12, so every course of a college
render sits in a term below 12 and its CSV "Term" column is
`toString (term + 1)`, between 1 and 12; and `output_json` for a college
builds exactly 12 term objects, so the per-term placement never leaves the
range. -/
theorem term_index_in_range :
    (∀ i, i < 16 → i - (i + 1) / 4 < 12) ∧
    (∀ (mo : MajorOutput) (c : String) (plan : Plan) (unitsFmt : ℚ → String)
       (reqsTable : ℕ → CourseCode → List (List Prerequisite)) (oc : OutputCourses),
      optTruthy (some c) = true →
      alookup mo.plans.plans c = some plan →
      plan.quarters.length ≤ 16 →
      mo.get_courses (some c) = .ok oc →
      ∀ o ∈ oc.render reqsTable, o.term < 12 ∧
        (courseRow unitsFmt o).getLast? = some (toString (o.term + 1))) ∧
    (∀ (mo : MajorOutput) (c : String)
       (reqsTable : ℕ → CourseCode → List (List Prerequisite)) (cur : Curriculum),
      optTruthy (some c) = true →
      mo.output_json reqsTable (some c) = .ok cur →
      cur.curriculum_terms.length = 12) := by
  refine ⟨?_, ?_, ?_⟩
  · intro i hi
    omega
  · intro mo c plan unitsFmt reqsTable oc htruthy hplan hq hok o ho
    simp only [MajorOutput.get_courses, htruthy, if_true, hplan] at hok
    have hoc := (Except.ok.inj hok).symm
    subst hoc
    refine ⟨?_, rfl⟩
    simp only [OutputCourses.render, OutputCourses.init, if_true] at ho
    rcases List.mem_append.1 ho with ho1 | ho1 <;>
    · obtain ⟨pc, hpc, -, -, hterm, -⟩ := runList_mem_shape _ _ _ _ _ ho1
      rw [hterm]
      obtain ⟨ic, hic, hpcic⟩ := List.mem_flatMap.1 hpc
      rw [processInput_term ic pc hpcic]
      obtain ⟨p, hp, hicp⟩ := List.mem_flatMap.1 hic
      obtain ⟨course, -, rfl⟩ := List.mem_map.1 hicp
      have hlt := List.fst_lt_of_mem_enum hp
      show p.1 - (p.1 + 1) / 4 < 12
      omega
  · intro mo c reqsTable cur htruthy hcur
    simp only [MajorOutput.output_json] at hcur
    split at hcur
    · cases hcur
    · have hc2 := (Except.ok.inj hcur).symm
      subst hc2
      show ((_ : List OutputCourse).foldl (fun ts o =>
        modifyAt ts o.term
          (fun t => Term.mk t.id (t.curriculum_items ++ [mkItem o]))) _).length = 12
      rw [foldl_modifyTerm_length]
      simp [htruthy]

theorem term_index_in_range_witness :
    (15 - (15 + 1) / 4 < 12) ∧
    ((⟨1, "CSE 11", ("CSE", "11"), [], [], 4, 0⟩ : OutputCourse).term < 12 ∧
      (courseRow (fun _ => "4")
          ⟨1, "CSE 11", ("CSE", "11"), [], [], 4, 0⟩).getLast?
        = some (toString
            ((⟨1, "CSE 11", ("CSE", "11"), [], [], 4, 0⟩ : OutputCourse).term + 1))) ∧
    ((⟨[⟨1, [⟨"CSE 11", 1, 4, []⟩]⟩, ⟨2, []⟩, ⟨3, []⟩, ⟨4, []⟩, ⟨5, []⟩, ⟨6, []⟩,
        ⟨7, []⟩, ⟨8, []⟩, ⟨9, []⟩, ⟨10, []⟩, ⟨11, []⟩,
        ⟨12, []⟩]⟩ : Curriculum).curriculum_terms.length = 12) :=
  ⟨term_index_in_range.1 15 (by decide),
   term_index_in_range.2.1
     ⟨⟨2021, "CSE", "CS26", [("TH", ⟨[[⟨"CSE 11", 4, "DEPARTMENT", false⟩]]⟩)]⟩,
      [], [], 1⟩
     "TH" ⟨[[⟨"CSE 11", 4, "DEPARTMENT", false⟩]]⟩ (fun _ => "4") (fun _ _ => []) _
     (by decide) rfl (by decide) rfl
     ⟨1, "CSE 11", ("CSE", "11"), [], [], 4, 0⟩ (by decide),
   term_index_in_range.2.2
     ⟨⟨2021, "CSE", "CS26", [("TH", ⟨[[⟨"CSE 11", 4, "DEPARTMENT", false⟩]]⟩)]⟩,
      [], [], 1⟩
     "TH" (fun _ _ => [])
     ⟨[⟨1, [⟨"CSE 11", 1, 4, []⟩]⟩, ⟨2, []⟩, ⟨3, []⟩, ⟨4, []⟩, ⟨5, []⟩, ⟨6, []⟩,
       ⟨7, []⟩, ⟨8, []⟩, ⟨9, []⟩, ⟨10, []⟩, ⟨11, []⟩, ⟨12, []⟩]⟩
     (by decide) rfl⟩

/-! ## The shared ID table across render passes (claim C5) -/

/-- A filtered generator run (`show_major` set) equals the unfiltered run
over the filtered course list: skipped courses touch neither the state nor
the output. -/
theorem runList_filter (env : RenderEnv) (b : Bool) :
    ∀ (l : List ProcessedCourse) (st : ListState),
      runList env (some b) st l
        = runList env none st (l.filter (fun c => c.major_course == b)) := by
  intro l
  induction l with
  | nil => intro st; rfl
  | cons c rest ih =>
    intro st
    cases hb : c.major_course == b with
    | true =>
      simp only [List.filter_cons, runList, hb, if_true]
      rw [ih]
    | false =>
      simp only [List.filter_cons, runList, hb, Bool.false_eq_true, if_false]
      exact ih st

theorem runList_none_append (env : RenderEnv) :
    ∀ (l1 l2 : List ProcessedCourse) (st : ListState),
      runList env none st (l1 ++ l2)
        = ((runList env none (runList env none st l1).1 l2).1,
           (runList env none st l1).2
             ++ (runList env none (runList env none st l1).1 l2).2) := by
  intro l1
  induction l1 with
  | nil => intro l2 st; simp [runList]
  | cons c rest ih =>
    intro l2 st
    rw [List.cons_append]
    rw [runList_none_cons, runList_none_cons, ih]
    simp

theorem runList_none_append_snd (env : RenderEnv) (l1 l2 : List ProcessedCourse)
    (st : ListState) :
    (runList env none st (l1 ++ l2)).2
      = (runList env none st l1).2
          ++ (runList env none (runList env none st l1).1 l2).2 := by
  rw [runList_none_append]

/-- Claim C5: the `MajorOutput`'s seeded ID table is shared by value, never
mutated: each pass extends a clone, so every binding of `course_ids`
survives verbatim into the curriculum pass's table and into every
college's degree-plan pass's table, and the first course bearing a seeded
code receives exactly the seeded ID in the curriculum output and in the
college's rendered output (whose enumeration lists the major section and
then the additional section). -/
theorem course_ids_invariant_across_passes
    (mo : MajorOutput) (reqsTable : ℕ → CourseCode → List (List Prerequisite))
    (c : String) (plan : Plan) (oc1 oc2 : OutputCourses)
    (htruthy : optTruthy (some c) = true)
    (hplan : alookup mo.plans.plans c = some plan)
    (h1 : mo.get_courses none = .ok oc1)
    (h2 : mo.get_courses (some c) = .ok oc2)
    {x : CourseCode} {v : ℕ} (hx : alookup mo.course_ids x = some v) :
    alookup oc1.course_ids x = some v ∧
    alookup oc2.course_ids x = some v ∧
    (∀ k (hk : k < oc1.processed_courses.length)
       (hk2 : k < (oc1.listAll reqsTable).length),
      (oc1.processed_courses.get ⟨k, hk⟩).code = x →
      (∀ i (hi : i < k),
        (oc1.processed_courses.get ⟨i, lt_trans hi hk⟩).code ≠ x) →
      ((oc1.listAll reqsTable).get ⟨k, hk2⟩).course_id = v) ∧
    (oc2.render reqsTable
      = (runList (oc2.env reqsTable) none oc2.state0
          (oc2.processed_courses.filter (fun pc => pc.major_course == true) ++
           oc2.processed_courses.filter (fun pc => pc.major_course == false))).2) ∧
    (∀ k (hk : k < (oc2.processed_courses.filter (fun pc => pc.major_course == true) ++
           oc2.processed_courses.filter (fun pc => pc.major_course == false)).length)
       (hk2 : k < (oc2.render reqsTable).length),
      ((oc2.processed_courses.filter (fun pc => pc.major_course == true) ++
        oc2.processed_courses.filter (fun pc => pc.major_course == false)).get
          ⟨k, hk⟩).code = x →
      (∀ i (hi : i < k),
        ((oc2.processed_courses.filter (fun pc => pc.major_course == true) ++
          oc2.processed_courses.filter (fun pc => pc.major_course == false)).get
            ⟨i, lt_trans hi hk⟩).code ≠ x) →
      ((oc2.render reqsTable).get ⟨k, hk2⟩).course_id = v) := by
  simp only [MajorOutput.get_courses, optTruthy, Bool.false_eq_true, if_false] at h1
  have ho1 := (Except.ok.inj h1).symm
  subst ho1
  simp only [MajorOutput.get_courses, htruthy, if_true, hplan] at h2
  have ho2 := (Except.ok.inj h2).symm
  subst ho2
  have hrender : (OutputCourses.init
        ((plan.quarters.enum.flatMap (fun p =>
          (sortQuarter p.2).map (fun course =>
            InputCourse.mk course
              (course.type == "DEPARTMENT" || course.overlaps_ge)
              (p.1 - (p.1 + 1) / 4)))).flatMap processInput)
        mo.start_id mo.course_ids true mo.plans.year).render reqsTable
      = (runList ((OutputCourses.init
            ((plan.quarters.enum.flatMap (fun p =>
              (sortQuarter p.2).map (fun course =>
                InputCourse.mk course
                  (course.type == "DEPARTMENT" || course.overlaps_ge)
                  (p.1 - (p.1 + 1) / 4)))).flatMap processInput)
            mo.start_id mo.course_ids true mo.plans.year).env reqsTable) none
          (OutputCourses.init
            ((plan.quarters.enum.flatMap (fun p =>
              (sortQuarter p.2).map (fun course =>
                InputCourse.mk course
                  (course.type == "DEPARTMENT" || course.overlaps_ge)
                  (p.1 - (p.1 + 1) / 4)))).flatMap processInput)
            mo.start_id mo.course_ids true mo.plans.year).state0
          ((OutputCourses.init
            ((plan.quarters.enum.flatMap (fun p =>
              (sortQuarter p.2).map (fun course =>
                InputCourse.mk course
                  (course.type == "DEPARTMENT" || course.overlaps_ge)
                  (p.1 - (p.1 + 1) / 4)))).flatMap processInput)
            mo.start_id mo.course_ids true mo.plans.year).processed_courses.filter
              (fun pc => pc.major_course == true) ++
           (OutputCourses.init
            ((plan.quarters.enum.flatMap (fun p =>
              (sortQuarter p.2).map (fun course =>
                InputCourse.mk course
                  (course.type == "DEPARTMENT" || course.overlaps_ge)
                  (p.1 - (p.1 + 1) / 4)))).flatMap processInput)
            mo.start_id mo.course_ids true mo.plans.year).processed_courses.filter
              (fun pc => pc.major_course == false))).2 := by
    simp only [OutputCourses.render, OutputCourses.init, if_true]
    rw [runList_filter, runList_filter, runList_none_append_snd]
  refine ⟨assignIds_keeps _ _ _ hx, assignIds_keeps _ _ _ hx, ?_, hrender, ?_⟩
  · intro k hk hk2 hcode hfirst
    exact listAll_first_code_id _ _ _ _ _ _ k hk
      (by rw [hcode]; exact assignIds_keeps _ _ _ hx)
      (fun i hi hcontra => hfirst i hi (hcontra.trans hcode)) hk2
  · rw [hrender]
    intro k hk hk2 hcode hfirst
    have hv2 : alookup (assignIds
        ((plan.quarters.enum.flatMap (fun p =>
          (sortQuarter p.2).map (fun course =>
            InputCourse.mk course
              (course.type == "DEPARTMENT" || course.overlaps_ge)
              (p.1 - (p.1 + 1) / 4)))).flatMap processInput)
        mo.start_id mo.course_ids).2 x = some v := assignIds_keeps _ _ _ hx
    exact runList_none_first_code_id _ _ _
      (List.mem_map.2 ⟨(x, v), alookup_mem hv2, rfl⟩) hv2 k hk hcode hfirst

theorem course_ids_invariant_across_passes_witness :
    alookup (⟨[⟨"CSE 11", ("CSE", "11"), 4, true, 0⟩], 8, [(("CSE", "11"), 7)], [],
        [("CSE", "11")], false, 2021⟩ : OutputCourses).course_ids ("CSE", "11")
      = some 7 ∧
    alookup (⟨[⟨"CSE 11", ("CSE", "11"), 4, true, 0⟩], 8, [(("CSE", "11"), 7)], [],
        [("CSE", "11")], true, 2021⟩ : OutputCourses).course_ids ("CSE", "11")
      = some 7 ∧
    (((⟨[⟨"CSE 11", ("CSE", "11"), 4, true, 0⟩], 8, [(("CSE", "11"), 7)], [],
        [("CSE", "11")], false, 2021⟩ : OutputCourses).listAll (fun _ _ => [])).get
      ⟨0, by decide⟩).course_id = 7 ∧
    ((⟨[⟨"CSE 11", ("CSE", "11"), 4, true, 0⟩], 8, [(("CSE", "11"), 7)], [],
        [("CSE", "11")], true, 2021⟩ : OutputCourses).render (fun _ _ => [])
      = (runList ((⟨[⟨"CSE 11", ("CSE", "11"), 4, true, 0⟩], 8, [(("CSE", "11"), 7)],
            [], [("CSE", "11")], true, 2021⟩ : OutputCourses).env (fun _ _ => []))
          none
          (⟨[⟨"CSE 11", ("CSE", "11"), 4, true, 0⟩], 8, [(("CSE", "11"), 7)], [],
            [("CSE", "11")], true, 2021⟩ : OutputCourses).state0
          ((⟨[⟨"CSE 11", ("CSE", "11"), 4, true, 0⟩], 8, [(("CSE", "11"), 7)], [],
             [("CSE", "11")], true, 2021⟩ : OutputCourses).processed_courses.filter
               (fun pc => pc.major_course == true) ++
           (⟨[⟨"CSE 11", ("CSE", "11"), 4, true, 0⟩], 8, [(("CSE", "11"), 7)], [],
             [("CSE", "11")], true, 2021⟩ : OutputCourses).processed_courses.filter
               (fun pc => pc.major_course == false))).2) ∧
    (((⟨[⟨"CSE 11", ("CSE", "11"), 4, true, 0⟩], 8, [(("CSE", "11"), 7)], [],
        [("CSE", "11")], true, 2021⟩ : OutputCourses).render (fun _ _ => [])).get
      ⟨0, by decide⟩).course_id = 7 := by
  obtain ⟨a, b, cc, d, e⟩ := course_ids_invariant_across_passes
    ⟨⟨2021, "CSE", "CS26", [("TH", ⟨[[⟨"CSE 11", 4, "DEPARTMENT", false⟩]]⟩)]⟩,
     [(("CSE", "11"), 7)], [⟨"CSE 11", 4, "DEPARTMENT", false⟩], 8⟩
    (fun _ _ => []) "TH" ⟨[[⟨"CSE 11", 4, "DEPARTMENT", false⟩]]⟩
    ⟨[⟨"CSE 11", ("CSE", "11"), 4, true, 0⟩], 8, [(("CSE", "11"), 7)], [],
      [("CSE", "11")], false, 2021⟩
    ⟨[⟨"CSE 11", ("CSE", "11"), 4, true, 0⟩], 8, [(("CSE", "11"), 7)], [],
      [("CSE", "11")], true, 2021⟩
    (by decide) rfl rfl rfl
    (by decide : alookup [((("CSE", "11") : CourseCode), 7)] ("CSE", "11") = some 7)
  exact ⟨a, b,
    cc 0 (by decide) (by decide) rfl (fun i hi => absurd hi (Nat.not_lt_zero i)),
    d,
    e 0 (by decide) (by decide) rfl (fun i hi => absurd hi (Nat.not_lt_zero i))⟩

end CurricularAnalytics
